import Mathlib

/-!
# gocb: design-document management and the client session

A shallow embedding of the `ViewIndexManager` of gocb (`bucket_viewindexes.go`) with
the name resolver `ddocName` it is built on, and of the client session `stdClient`
(`client.go`), followed by theorems about them.

Modelling conventions

* A Go `string` is a finite sequence of bytes: `GoString = List (Fin 256)`.
  String literals of the source are written `utf8 "..."`.
* A Go `error` result is `Option GoError` (`none` is `nil`); a Go pair
  `(value, error)` is `Except GoError value`.
* The HTTP provider is a deterministic server: the reply to a request is a
  function of the whole sequence of requests sent so far.  Every operation
  takes the log of requests sent so far and returns the extended log, so the
  requests an operation issues can be read off its result.
* `encoding/json` and the `%v` formatting of errors are collaborators; they
  are taken as parameters (`Codec`).
* The `context.Context` of a request only carries the caller's deadline to
  the transport; it does not influence any branch of the code and is left out
  of the request record.  `logDebugf` and `resp.Body.Close()` (whose error is
  only logged) have no effect on results and are left out as well.
-/

namespace Gocb

/-! ## Strings -/

/-- Go strings are byte sequences. -/
abbrev GoString := List (Fin 256)

/-- The bytes of a source-code string literal (its UTF-8 encoding). -/
def utf8 (s : String) : GoString :=
  s.data.flatMap (fun c => (String.utf8EncodeChar c).map (fun b => b.val))

/-- Go `strings.HasPrefix(s, pre)`. -/
def HasPrefix (s pre : GoString) : Bool :=
  pre.isPrefixOf s

/-- Go `strings.TrimLeft(s, cutset)`: removes every leading byte of `s` that occurs in
`cutset`.  (Exact for a cutset of ASCII bytes, the only use in the source.) -/
def TrimLeft (s cutset : GoString) : GoString :=
  s.dropWhile (fun b => cutset.contains b)

/-- Go `strings.TrimPrefix(s, pre)`: removes `pre` once from the front of `s` when it is
there. -/
def TrimPrefix (s pre : GoString) : GoString :=
  if HasPrefix s pre then s.drop pre.length else s

/-- Go slice expression `s[n:]`; `none` is the run-time panic "slice bounds out of
range", raised when `n > len(s)`. -/
def sliceFrom (s : GoString) (n : Nat) : Option GoString :=
  if n ≤ s.length then some (s.drop n) else none

/-! ## Data model -/

/-- The type `DesignDocumentNamespace` of the source is `bool`. -/
abbrev DesignDocumentNamespace := Bool

/-- Constant `ProductionDesignDocumentNamespace = true`. -/
def ProductionDesignDocumentNamespace : DesignDocumentNamespace := true

/-- Constant `DevelopmentDesignDocumentNamespace = false`. -/
def DevelopmentDesignDocumentNamespace : DesignDocumentNamespace := false

/-- A view of a design document. -/
structure View where
  Map : GoString
  Reduce : GoString
  deriving DecidableEq, Repr

/-- Method `View.hasReduce`. -/
def View.hasReduce (v : View) : Bool :=
  v.Reduce != []

/-- The entries of a Go `map[string]View`. -/
abbrev ViewMap := List (GoString × View)

/-- The struct `DesignDocument`.  `Name` carries the tag `json:"-"`: it is neither
written by `json.Marshal` nor set by the JSON decoder. -/
structure DesignDocument where
  Name : GoString
  Views : ViewMap
  deriving DecidableEq, Repr

/-- An error value produced by a collaborator (transport, `ioutil.ReadAll`,
`encoding/json`), identified by a tag.  None of them is a `viewIndexError`, a type
private to this package. -/
abbrev ExtError := Nat

/-- Modelled from the spec: the declaration of `viewIndexError` is not among the source
files; its fields are the ones the composite literals of `bucket_viewindexes.go` set
(`statusCode`, `message`, `indexMissing`, `publishDropFail`).  A field a literal does
not mention has Go's zero value. -/
structure viewIndexError where
  statusCode : Int := 0
  message : GoString := []
  indexMissing : Bool := false
  publishDropFail : Bool := false
  deriving DecidableEq, Repr

/-- The values of Go's `error` interface that occur in this file. -/
inductive GoError where
  | external (e : ExtError)
  | viewIndex (e : viewIndexError)
  | wrapped (cause : GoError) (msg : GoString)
  deriving DecidableEq, Repr

/-- A response body (`io.ReadCloser`): the bytes it delivers and, when reading it
breaks, the error it ends with. -/
structure Body where
  content : GoString
  readErr : Option ExtError
  deriving DecidableEq, Repr

/-- Go `ioutil.ReadAll(resp.Body)`, as used by the source: the data when the stream
ends cleanly, the error otherwise. -/
def ReadAll (b : Body) : Except GoError GoString :=
  match b.readErr with
  | some e => .error (.external e)
  | none => .ok b.content

/-- The two services requests are sent to. -/
inductive ServiceType where
  | CapiService
  | MgmtService
  deriving DecidableEq, Repr

/-- The fields of `gocbcore.HttpRequest` the source sets (the context apart). -/
structure HttpRequest where
  Service : ServiceType
  Path : GoString
  Method : GoString
  Body : GoString := []
  deriving DecidableEq, Repr

/-- The fields of `gocbcore.HttpResponse` the source reads. -/
structure HttpResponse where
  StatusCode : Int
  Body : Body
  deriving DecidableEq, Repr

/-- The HTTP provider: the reply to the last request of a history of requests, either
a transport error or a response. -/
abbrev HttpProvider := List HttpRequest → Except ExtError HttpResponse

/-- The collaborators that are not part of the repository: `json.Marshal` of a design
document (a function of its views, `Name` being tagged `json:"-"`), the JSON decoder
reading a single design document or a listing from a response body (a listing row
yields its `Doc.Meta.Id` and the views of its `Doc.Json`), and the text `%v` prints for
an error. -/
structure Codec where
  marshal : ViewMap → Except ExtError GoString
  decodeDesignDocument : Body → Except ExtError ViewMap
  decodeListing : Body → Except ExtError (List (GoString × ViewMap))
  errorText : GoError → GoString

/-- The struct `ViewIndexManager`. -/
structure ViewIndexManager where
  bucketName : GoString
  httpClient : HttpProvider

/-- Method `DoHttpRequest` of the HTTP provider: sends `req` after the requests of `log`;
returns the reply and the extended log. -/
def DoHttpRequest (vm : ViewIndexManager) (req : HttpRequest) (log : List HttpRequest) :
    Except ExtError HttpResponse × List HttpRequest :=
  (vm.httpClient (log ++ [req]), log ++ [req])

/-! ## `ddocName` -/

/-- Method `ViewIndexManager.ddocName`. -/
def ddocName (name : GoString) (isProd : DesignDocumentNamespace) : GoString :=
  if isProd then
    if HasPrefix name (utf8 "dev_") then TrimLeft name (utf8 "dev_") else name
  else
    if !HasPrefix name (utf8 "dev_") then utf8 "dev_" ++ name else name

/-! ## Operations of `ViewIndexManager` -/

/-- Method `ViewIndexManager.GetDesignDocument`. -/
def GetDesignDocument (c : Codec) (vm : ViewIndexManager) (name : GoString)
    (ns : DesignDocumentNamespace) (log : List HttpRequest) :
    Except GoError DesignDocument × List HttpRequest :=
  let name := ddocName name ns
  let req : HttpRequest :=
    { Service := .CapiService, Path := utf8 "/_design/" ++ name, Method := utf8 "GET" }
  match DoHttpRequest vm req log with
  | (.error err, log) => (.error (.external err), log)
  | (.ok resp, log) =>
    if resp.StatusCode ≠ 200 then
      match ReadAll resp.Body with
      | .error err => (.error err, log)
      | .ok data =>
        (.error (.viewIndex
          { statusCode := resp.StatusCode, message := data,
            indexMissing := resp.StatusCode == 404 }), log)
    else
      match c.decodeDesignDocument resp.Body with
      | .error err => (.error (.external err), log)
      | .ok views => (.ok { Name := TrimPrefix name (utf8 "dev_"), Views := views }, log)

/-- A decoded row of the listing: `Doc.Meta.Id` and `Doc.Json`. -/
structure ListingRow where
  Id : GoString
  Json : DesignDocument
  deriving DecidableEq, Repr

/-- The rows the JSON decoder fills in: `Name` of `Doc.Json` is tagged `json:"-"`, so
it keeps the zero value of the freshly declared `ddocsObj`. -/
def decodedRows (rows : List (GoString × ViewMap)) : List ListingRow :=
  rows.map (fun r => { Id := r.1, Json := { Name := [], Views := r.2 } })

/-- The `for ... range ddocsObj.Rows` loop of `GetAllDesignDocuments`, with `ddocs` the
slice built so far; `none` is a run-time panic of `Id[8:]`. -/
def collectRows (ns : DesignDocumentNamespace) :
    List ListingRow → List DesignDocument → Option (List DesignDocument)
  | [], ddocs => some ddocs
  | ddocData :: rest, ddocs =>
    let ddoc := ddocData.Json
    let isProd := !HasPrefix ddoc.Name (utf8 "dev_")
    if isProd == ns then
      match sliceFrom ddocData.Id 8 with
      | none => none
      | some tail =>
        collectRows ns rest
          (ddocs ++ [{ ddoc with Name := TrimPrefix tail (utf8 "dev_") }])
    else
      collectRows ns rest ddocs

/-- How a call of `GetAllDesignDocuments` ends. -/
inductive ListingResult where
  | ok (ddocs : List DesignDocument)
  | err (e : GoError)
  | panic
  deriving DecidableEq, Repr

/-- Method `ViewIndexManager.GetAllDesignDocuments`. -/
def GetAllDesignDocuments (c : Codec) (vm : ViewIndexManager)
    (ns : DesignDocumentNamespace) (log : List HttpRequest) :
    ListingResult × List HttpRequest :=
  let req : HttpRequest :=
    { Service := .MgmtService,
      Path := utf8 "/pools/default/buckets/" ++ vm.bucketName ++ utf8 "/ddocs",
      Method := utf8 "GET" }
  match DoHttpRequest vm req log with
  | (.error err, log) => (.err (.external err), log)
  | (.ok resp, log) =>
    if resp.StatusCode ≠ 200 then
      match ReadAll resp.Body with
      | .error err => (.err err, log)
      | .ok data =>
        (.err (.viewIndex { statusCode := resp.StatusCode, message := data }), log)
    else
      match c.decodeListing resp.Body with
      | .error err => (.err (.external err), log)
      | .ok rows =>
        match collectRows ns (decodedRows rows) [] with
        | none => (.panic, log)
        | some ddocs => (.ok ddocs, log)

/-- Method `ViewIndexManager.UpsertDesignDocument`. -/
def UpsertDesignDocument (c : Codec) (vm : ViewIndexManager) (ddoc : DesignDocument)
    (ns : DesignDocumentNamespace) (log : List HttpRequest) :
    Option GoError × List HttpRequest :=
  match c.marshal ddoc.Views with
  | .error err => (some (.external err), log)
  | .ok data =>
    let ddoc := { ddoc with Name := ddocName ddoc.Name ns }
    let req : HttpRequest :=
      { Service := .CapiService, Path := utf8 "/_design/" ++ ddoc.Name,
        Method := utf8 "PUT", Body := data }
    match DoHttpRequest vm req log with
    | (.error err, log) => (some (.external err), log)
    | (.ok resp, log) =>
      if resp.StatusCode ≠ 201 then
        match ReadAll resp.Body with
        | .error err => (some err, log)
        | .ok data =>
          (some (.viewIndex { statusCode := resp.StatusCode, message := data }), log)
      else
        (none, log)

/-- Method `ViewIndexManager.DropDesignDocument`. -/
def DropDesignDocument (vm : ViewIndexManager) (name : GoString)
    (ns : DesignDocumentNamespace) (log : List HttpRequest) :
    Option GoError × List HttpRequest :=
  let name := ddocName name ns
  let req : HttpRequest :=
    { Service := .CapiService, Path := utf8 "/_design/" ++ name, Method := utf8 "DELETE" }
  match DoHttpRequest vm req log with
  | (.error err, log) => (some (.external err), log)
  | (.ok resp, log) =>
    if resp.StatusCode ≠ 200 then
      match ReadAll resp.Body with
      | .error err => (some err, log)
      | .ok data =>
        (some (.viewIndex
          { statusCode := resp.StatusCode, message := data,
            indexMissing := resp.StatusCode == 404 }), log)
    else
      (none, log)

/-- Method `ViewIndexManager.PublishDesignDocument`. -/
def PublishDesignDocument (c : Codec) (vm : ViewIndexManager) (name : GoString)
    (log : List HttpRequest) : Option GoError × List HttpRequest :=
  match GetDesignDocument c vm name false log with
  | (.error err, log) =>
    match err with
    | .viewIndex indexErr =>
      if indexErr.indexMissing then
        (some (.viewIndex
          { message := utf8 "Development design document does not exist",
            indexMissing := true }), log)
      else
        (some err, log)
    | _ => (some err, log)
  | (.ok devdoc, log) =>
    match UpsertDesignDocument c vm devdoc true log with
    | (some err, log) => (some (.wrapped err (utf8 "failed to create ")), log)
    | (none, log) =>
      match DropDesignDocument vm devdoc.Name false log with
      | (some err, log) =>
        (some (.viewIndex
          { message := utf8 "failed to drop development index: " ++ c.errorText err,
            publishDropFail := true }), log)
      | (none, log) => (none, log)

/-! ## The client session (`client.go`)

The session is modelled sequentially: `connect` runs under the session lock, so calls
on one session are executed one after the other.  What the collaborators do (parsing the
connection string, creating the transport agent, looking a collection up, the caller's
context ending) is given from outside; the reply of `CreateAgent` is a function of the
history of its calls, like the reply of the HTTP provider. -/

/-- A certificate of a TLS configuration, identified by a tag. -/
abbrev Certificate := Nat

/-- The part of `tls.Config` the source reads. -/
structure TlsConfig where
  Certificates : List Certificate
  deriving DecidableEq, Repr

/-- Modelled from the spec: the authenticator types are declared outside the source
files; section 6 describes an authenticator as polymorphic over credential and
certificate and opaque beyond that kind check.  `CertAuthenticator` is the certificate
kind, the one for which the type assertion `auth.(CertAuthenticator)` succeeds. -/
inductive Authenticator where
  | PasswordAuthenticator (id : Nat)
  | CertAuthenticator (id : Nat)
  deriving DecidableEq, Repr

/-- The flag `ok` of `_, ok := auth.(CertAuthenticator)`; a nil interface value fails
the assertion. -/
def isCertAuthenticator (auth : Option Authenticator) : Bool :=
  match auth with
  | some (.CertAuthenticator _) => true
  | _ => false

/-- How a context ends: `ctx.Err()` is `context.DeadlineExceeded` or
`context.Canceled` once `ctx.Done()` is closed. -/
inductive ContextEnd where
  | DeadlineExceeded
  | Canceled
  deriving DecidableEq, Repr

/-- Modelled from the spec: `configurationError`, `timeoutError` and
`maybeEnhanceKVErr` are declared outside the source files.  The error values of the
session are: an error of the transport library, a `configurationError` with its message,
the value `maybeEnhanceKVErr(err, "", false)` makes of a transport error (section 7:
transport errors are wrapped with context and surfaced unchanged in kind, so it is kept
as a term of its own), a value of `errors.New`, `timeoutError` and the two errors of
package `context`. -/
inductive ClientError where
  | external (e : ExtError)
  | configurationError (message : GoString)
  | enhanced (e : ExtError)
  | errorsNew (message : GoString)
  | timeoutError
  | context (e : ContextEnd)
  deriving DecidableEq, Repr

/-- The fields of `gocbcore.AgentConfig` that `connect` sets or reads (`UserString`,
the library identifier, apart). Durations are in milliseconds. -/
structure AgentConfig where
  ConnectTimeout : Nat
  UseMutationTokens : Bool
  ServerConnectTimeout : Nat
  NmvRetryDelay : Nat
  UseKvErrorMaps : Bool
  UseDurations : Bool
  UseCollections : Bool
  UseEnhancedErrors : Bool
  TlsConfig : Option TlsConfig := none
  BucketName : GoString := []
  Auth : Option Authenticator := none
  deriving DecidableEq, Repr

/-- A transport agent, identified by a tag. -/
abbrev Agent := Nat

/-- The transport library: `config.FromConnStr(connStr)`, which fills the configuration
in from a connection string or fails, and `gocbcore.CreateAgent`, whose reply is given
for the last configuration of the history of its calls. -/
structure Core where
  FromConnStr : AgentConfig → GoString → Except ExtError AgentConfig
  CreateAgent : List AgentConfig → Except ExtError Agent

/-- The fields of `Cluster` that `connect` reads: the authenticator, the connection
string `connSpec().String()` and the connect timeout of its state block. -/
structure Cluster where
  auth : Option Authenticator
  connStr : GoString
  ConnectTimeout : Nat
  deriving DecidableEq, Repr

/-- The struct `clientStateBlock`, as `newBucket` fills it. -/
structure clientStateBlock where
  BucketName : GoString
  UseMutationTokens : Bool
  deriving DecidableEq, Repr

/-- The struct `stdClient` (the lock apart). -/
structure stdClient where
  cluster : Cluster
  state : clientStateBlock
  agent : Option Agent
  bootstrapErr : Option ClientError
  deriving DecidableEq, Repr

/-- Function `newClient`. -/
def newClient (cluster : Cluster) (sb : clientStateBlock) : stdClient :=
  { cluster := cluster, state := sb, agent := none, bootstrapErr := none }

/-- The configuration `connect` starts from. -/
def baseConfig (c : stdClient) : AgentConfig :=
  { ConnectTimeout := c.cluster.ConnectTimeout,
    UseMutationTokens := c.state.UseMutationTokens,
    ServerConnectTimeout := 7000,
    NmvRetryDelay := 100,
    UseKvErrorMaps := true,
    UseDurations := true,
    UseCollections := true,
    UseEnhancedErrors := true }

/-- The expression `config.TlsConfig != nil && len(config.TlsConfig.Certificates) > 0`. -/
def useCertificates (config : AgentConfig) : Bool :=
  match config.TlsConfig with
  | some tls => decide (tls.Certificates.length > 0)
  | none => false

/-- The message of the mixed-authentication error. -/
def mixedAuthMessage : GoString :=
  utf8 "invalid mixed authentication configuration, client certificate and CertAuthenticator must be used together"

/-- Method `stdClient.connect`: the session after the call, the error returned, and the
history of `CreateAgent` calls extended by the call made, if any. -/
def connect (core : Core) (c : stdClient) (created : List AgentConfig) :
    (stdClient × Option ClientError) × List AgentConfig :=
  let auth := c.cluster.auth
  match core.FromConnStr (baseConfig c) c.cluster.connStr with
  | .error err =>
    (({ c with bootstrapErr := some (.external err) }, some (.external err)), created)
  | .ok config =>
    let configErr : (stdClient × Option ClientError) × List AgentConfig :=
      (({ c with bootstrapErr := some (.configurationError mixedAuthMessage) },
        some (.configurationError mixedAuthMessage)), created)
    let afterCertificates : (stdClient × Option ClientError) × List AgentConfig :=
      if isCertAuthenticator auth && !useCertificates config then
        configErr
      else
        let config :=
          { config with
            BucketName := c.state.BucketName,
            UseMutationTokens := c.state.UseMutationTokens,
            Auth := c.cluster.auth }
        match core.CreateAgent (created ++ [config]) with
        | .error err =>
          (({ c with bootstrapErr := some (.enhanced err) }, some (.enhanced err)),
            created ++ [config])
        | .ok agent => (({ c with agent := some agent }, none), created ++ [config])
    if useCertificates config then
      if auth = none then
        configErr
      else if !isCertAuthenticator auth then
        configErr
      else
        afterCertificates
    else
      afterCertificates

/-- The error `errors.New("Cluster not yet connected")`. -/
def notConnected : ClientError :=
  .errorsNew (utf8 "Cluster not yet connected")

/-- Method `stdClient.getKvProvider`: the provider and the error returned. -/
def getKvProvider (c : stdClient) : Option Agent × Option ClientError :=
  if c.bootstrapErr ≠ none then
    (none, c.bootstrapErr)
  else if c.agent = none then
    (none, some notConnected)
  else
    (c.agent, none)

/-- Method `stdClient.getHTTPProvider`. -/
def getHTTPProvider (c : stdClient) : Option Agent × Option ClientError :=
  if c.bootstrapErr ≠ none then
    (none, c.bootstrapErr)
  else if c.agent = none then
    (none, some notConnected)
  else
    (c.agent, none)

/-- Method `stdClient.getDiagnosticsProvider`. -/
def getDiagnosticsProvider (c : stdClient) : Option Agent × Option ClientError :=
  if c.bootstrapErr ≠ none then
    (none, c.bootstrapErr)
  else
    (c.agent, none)

/-- The calls `openCollection` makes on the agent. -/
inductive AgentCall where
  | HasCollectionsSupport
  | GetCollectionID (scopeName collectionName : GoString)
  | Cancel
  deriving DecidableEq, Repr

/-- The caller's context: whether `ctx.Done()` is ever closed, and what `ctx.Err()` is
then. -/
structure Context where
  done : Option ContextEnd
  deriving DecidableEq, Repr

/-- What the agent and the scheduler do during one `openCollection`:
`HasCollectionsSupport()`; the error `GetCollectionID` returns (with a nil operation,
and then the callback is never invoked); the error the callback is invoked with, if it
is ever invoked (`some none` is a resolved identifier); whether the `select` takes the
`ctx.Done()` case when both cases are ready; and what `op.Cancel()` returns. -/
structure Lookup where
  collectionsSupport : Bool
  dispatch : Option ClientError
  completion : Option (Option ClientError)
  ctxFirst : Bool
  cancel : Bool
  deriving DecidableEq, Repr

/-- How a call ends: it returns, it panics, or it waits for ever. -/
inductive Ending where
  | returned
  | panicked
  | blocked
  deriving DecidableEq, Repr

/-- The observable course of one `openCollection`: the session when the call ends, how
it ends, the values assigned to `bootstrapErr` in order, and the calls made on the
agent. -/
structure OpenResult where
  client : stdClient
  ending : Ending
  recorded : List (Option ClientError)
  calls : List AgentCall
  deriving DecidableEq, Repr

/-- Method `stdClient.openCollection`. -/
def openCollection (lk : Lookup) (c : stdClient) (ctx : Context)
    (scopeName collectionName : GoString) : OpenResult :=
  if scopeName = utf8 "_default" ∧ collectionName = utf8 "_default" then
    { client := c, ending := .returned, recorded := [], calls := [] }
  else if c.agent = none then
    { client := { c with bootstrapErr := some notConnected }, ending := .returned,
      recorded := [some notConnected], calls := [] }
  else if !lk.collectionsSupport then
    { client :=
        { c with bootstrapErr := some (.errorsNew (utf8 "Collections not supported by server")) },
      ending := .returned,
      recorded := [some (.errorsNew (utf8 "Collections not supported by server"))],
      calls := [.HasCollectionsSupport] }
  else
    let calls : List AgentCall :=
      [.HasCollectionsSupport, .GetCollectionID scopeName collectionName]
    let err := lk.dispatch
    -- `if err != nil { c.bootstrapErr = err }`
    let c1 : stdClient := if err ≠ none then { c with bootstrapErr := err } else c
    let rec1 : List (Option ClientError) := if err ≠ none then [err] else []
    -- the callback is invoked only for a lookup that was dispatched
    let signal : Option (Option ClientError) := if err = none then lk.completion else none
    -- the final `c.bootstrapErr = colErr`
    let finish (colErr : Option ClientError) (calls : List AgentCall) : OpenResult :=
      { client := { c1 with bootstrapErr := colErr }, ending := .returned,
        recorded := rec1 ++ [colErr], calls := calls }
    let ctxCase (ctxErr : ContextEnd) : OpenResult :=
      if err ≠ none then
        -- `op` is nil: `op.Cancel()` panics
        { client := c1, ending := .panicked, recorded := rec1, calls := calls }
      else if lk.cancel then
        if err = some (.context .DeadlineExceeded) then
          finish (some .timeoutError) (calls ++ [.Cancel])
        else
          finish (some (.context ctxErr)) (calls ++ [.Cancel])
      else
        -- `<-waitCh`
        match signal with
        | some colErr => finish colErr (calls ++ [.Cancel])
        | none =>
          { client := c1, ending := .blocked, recorded := rec1, calls := calls ++ [.Cancel] }
    -- the `select`
    match ctx.done, signal with
    | some ctxErr, some colErr => if lk.ctxFirst then ctxCase ctxErr else finish colErr calls
    | some ctxErr, none => ctxCase ctxErr
    | none, some colErr => finish colErr calls
    | none, none => { client := c1, ending := .blocked, recorded := rec1, calls := calls }

/-- The calls made on a session. -/
inductive SessionCall where
  | connect
  | openCollection (lk : Lookup) (ctx : Context) (scopeName collectionName : GoString)

/-- A sequence of calls made on a session one after the other; a call that panics or
never returns ends the sequence. -/
def runCalls (core : Core) :
    List SessionCall → stdClient → List AgentConfig → stdClient × List AgentConfig
  | [], c, created => (c, created)
  | .connect :: rest, c, created =>
    runCalls core rest (connect core c created).1.1 (connect core c created).2
  | .openCollection lk ctx scopeName collectionName :: rest, c, created =>
    match (openCollection lk c ctx scopeName collectionName).ending with
    | .returned =>
      runCalls core rest (openCollection lk c ctx scopeName collectionName).client created
    | _ => ((openCollection lk c ctx scopeName collectionName).client, created)

/-! ## Reference definitions following the specification -/

/-- The logical name of a physical name as the specification words it: one leading
marker `dev_` removed.  It is the expression `strings.TrimPrefix(name, "dev_")` that
`GetDesignDocument` applies before it hands a document to the caller. -/
def logicalName (physical : GoString) : GoString :=
  TrimPrefix physical (utf8 "dev_")

/-- The physical name as the specification words it: for Production a present marker is
stripped (that one 4-byte prefix), for Development an absent marker is added, and the
name is unchanged otherwise. -/
def physicalNameSpec (name : GoString) (ns : DesignDocumentNamespace) : GoString :=
  if ns = ProductionDesignDocumentNamespace ∧ HasPrefix name (utf8 "dev_") = true then
    name.drop 4
  else if ns = DevelopmentDesignDocumentNamespace ∧ HasPrefix name (utf8 "dev_") = false then
    utf8 "dev_" ++ name
  else
    name

/-- The request `GetDesignDocument` sends for `name` in namespace `ns`. -/
def getRequest (name : GoString) (ns : DesignDocumentNamespace) : HttpRequest :=
  { Service := .CapiService, Path := utf8 "/_design/" ++ ddocName name ns,
    Method := utf8 "GET" }

/-- The request `UpsertDesignDocument` sends for a document named `name` in namespace
`ns` once the document has been serialized to `data`. -/
def putRequest (name : GoString) (ns : DesignDocumentNamespace) (data : GoString) :
    HttpRequest :=
  { Service := .CapiService, Path := utf8 "/_design/" ++ ddocName name ns,
    Method := utf8 "PUT", Body := data }

/-- The request `DropDesignDocument` sends for `name` in namespace `ns`. -/
def deleteRequest (name : GoString) (ns : DesignDocumentNamespace) : HttpRequest :=
  { Service := .CapiService, Path := utf8 "/_design/" ++ ddocName name ns,
    Method := utf8 "DELETE" }

/-- A request addresses a development copy: its path is `/_design/` followed by a
physical name that carries the marker. -/
def addressesDevelopment (r : HttpRequest) : Bool :=
  HasPrefix r.Path (utf8 "/_design/dev_")

/-- A request addresses a production copy: its path is `/_design/` followed by a
physical name without the marker. -/
def addressesProduction (r : HttpRequest) : Bool :=
  HasPrefix r.Path (utf8 "/_design/") && !HasPrefix r.Path (utf8 "/_design/dev_")

/-! ## Sample collaborators, used to exhibit concrete runs -/

/-- A server that answers the k-th request it receives with the k-th reply of a script,
and with transport error 0 once the script is exhausted. -/
def scripted (replies : List (Except ExtError HttpResponse)) : HttpProvider :=
  fun history => replies.getD (history.length - 1) (.error 0)

/-- The bytes of the JSON text of a design document without views (an opening and a
closing brace). -/
def emptyObject : GoString := [123, 125]

/-- A stand-in for `encoding/json` that agrees with it on the bodies used in the
concrete runs below: the text of the empty object decodes to a document without views
(and to a listing without rows), a document without views is serialized to that text, a
body whose stream breaks or that holds no JSON value at all is rejected. -/
def sampleCodec : Codec where
  marshal := fun views => if views = [] then .ok emptyObject else .error 3
  decodeDesignDocument := fun b =>
    match b.readErr with
    | some e => .error e
    | none => if b.content = emptyObject then .ok [] else .error 2
  decodeListing := fun b =>
    match b.readErr with
    | some e => .error e
    | none => if b.content = emptyObject then .ok [] else .error 2
  errorText := fun _ => utf8 "error"

/-- A manager for bucket `default` talking to a scripted server. -/
def sampleManager (replies : List (Except ExtError HttpResponse)) : ViewIndexManager :=
  { bucketName := utf8 "default", httpClient := scripted replies }

/-- A response with the given status whose body is read without error. -/
def response (status : Int) (content : GoString) : Except ExtError HttpResponse :=
  .ok { StatusCode := status, Body := { content := content, readErr := none } }

/-- A response with the given status whose body breaks while it is read. -/
def brokenResponse (status : Int) (e : ExtError) : Except ExtError HttpResponse :=
  .ok { StatusCode := status, Body := { content := [], readErr := some e } }

/-- A stand-in for the JSON decoder reading a listing whose body holds the given rows
(storage identifier and views of each row). -/
def listingCodec (rows : List (GoString × ViewMap)) : Codec :=
  { sampleCodec with
    decodeListing := fun b =>
      match b.readErr with
      | some e => .error e
      | none => .ok rows }

/-- A listing of two rows: the development document `dev_a` and the production document
`b`. -/
def sampleRows : List (GoString × ViewMap) :=
  [(utf8 "_design/dev_a", []), (utf8 "_design/b", [])]

/-- The listing as the specification words it, for rows whose storage identifier is
`_design/` followed by the physical name: the rows whose physical name matches the
requested namespace (marker present for Development, absent for Production), each under
its logical name, in the order of the server. -/
def listingSpec (ns : DesignDocumentNamespace) (rows : List (GoString × ViewMap)) :
    List DesignDocument :=
  (rows.filter (fun r => (!HasPrefix (r.1.drop 8) (utf8 "dev_")) == ns)).map
    (fun r => { Name := logicalName (r.1.drop 8), Views := r.2 })

/-- A listing whose only row carries no storage identifier (the decoder leaves
`Doc.Meta.Id` empty when the row has none). -/
def rowsWithoutId : List (GoString × ViewMap) :=
  [(utf8 "", [])]

/-- A listing whose only row carries the 7-byte storage identifier `_design`. -/
def rowsWithShortId : List (GoString × ViewMap) :=
  [(utf8 "_design", [])]

/-- The sequences of calls for which the session invariant is stated: at most one
`connect`, and every `openCollection` for the default scope and collection. -/
def atMostOneConnect (calls : List SessionCall) : Bool :=
  decide ((calls.filter (fun call =>
      match call with
      | .connect => true
      | _ => false)).length ≤ 1) &&
    calls.all (fun call =>
      match call with
      | .connect => true
      | .openCollection _ _ scopeName collectionName =>
        decide (scopeName = utf8 "_default" ∧ collectionName = utf8 "_default"))

/-- A cluster with a password authenticator. -/
def sampleCluster : Cluster :=
  { auth := some (.PasswordAuthenticator 1), connStr := utf8 "couchbase://localhost",
    ConnectTimeout := 10000 }

/-- The state block of bucket `default`. -/
def sampleState : clientStateBlock :=
  { BucketName := utf8 "default", UseMutationTokens := true }

/-- A transport library for which every connection string parses without TLS material
and whose k-th `CreateAgent` call yields agent k. -/
def sampleCore : Core :=
  { FromConnStr := fun config _ => .ok config,
    CreateAgent := fun history => .ok history.length }

/-- A transport library whose first `CreateAgent` call fails with error 5 and whose later
calls succeed. -/
def flakyCore : Core :=
  { FromConnStr := fun config _ => .ok config,
    CreateAgent := fun history => if history.length = 1 then .error 5 else .ok history.length }

/-- A transport library for which the connection string carries one client
certificate. -/
def tlsCore : Core :=
  { FromConnStr := fun config _ => .ok { config with TlsConfig := some { Certificates := [1] } },
    CreateAgent := fun history => .ok history.length }

/-- A session of the sample cluster that holds agent 1 and no error. -/
def connectedClient : stdClient :=
  { cluster := sampleCluster, state := sampleState, agent := some 1, bootstrapErr := none }

/-- A lookup that is dispatched, never completes and is cancelled successfully. -/
def cancelledLookup : Lookup :=
  { collectionsSupport := true, dispatch := none, completion := none, ctxFirst := true,
    cancel := true }

/-- A lookup that is dispatched and completes with error 9; when the context fires first
it is past the cancellable point. -/
def failingLookup : Lookup :=
  { collectionsSupport := true, dispatch := none, completion := some (some (.external 9)),
    ctxFirst := true, cancel := false }

/-! ## Facts about strings -/

theorem utf8_dev : utf8 "dev_" = [100, 101, 118, 95] := by decide

theorem utf8_design : utf8 "/_design/" = [47, 95, 100, 101, 115, 105, 103, 110, 47] := by
  decide

theorem hasPrefix_dev_iff (s : GoString) :
    HasPrefix s (utf8 "dev_") = true ↔ ∃ t, s = utf8 "dev_" ++ t := by
  unfold HasPrefix
  rw [List.isPrefixOf_iff_prefix]
  constructor
  · rintro ⟨t, ht⟩
    exact ⟨t, ht.symm⟩
  · rintro ⟨t, ht⟩
    exact ⟨t, ht.symm⟩

theorem hasPrefix_dev_append (t : GoString) : HasPrefix (utf8 "dev_" ++ t) (utf8 "dev_") = true :=
  (hasPrefix_dev_iff _).2 ⟨t, rfl⟩

/-- What `TrimLeft` leaves never starts with a byte of the cutset. -/
theorem trimLeft_head_not_mem (s cutset : GoString) (b : Fin 256) (t : GoString)
    (h : TrimLeft s cutset = b :: t) : cutset.contains b = false := by
  unfold TrimLeft at h
  induction s with
  | nil => simp at h
  | cons a s ih =>
    rw [List.dropWhile_cons] at h
    by_cases ha : cutset.contains a = true
    · simp only [ha, if_true] at h
      exact ih h
    · simp only [ha] at h
      simp only [Bool.false_eq_true, if_false, List.cons.injEq] at h
      rw [← h.1]
      simpa using ha

theorem trimLeft_dev_not_hasPrefix (s : GoString) :
    HasPrefix (TrimLeft s (utf8 "dev_")) (utf8 "dev_") = false := by
  cases hp : HasPrefix (TrimLeft s (utf8 "dev_")) (utf8 "dev_") with
  | false => rfl
  | true =>
    obtain ⟨t, ht⟩ := (hasPrefix_dev_iff _).1 hp
    rw [utf8_dev] at ht
    have h := trimLeft_head_not_mem s (utf8 "dev_") 100 _ ht
    rw [utf8_dev] at h
    exact absurd h (by decide)

theorem trimPrefix_dev_append (t : GoString) : TrimPrefix (utf8 "dev_" ++ t) (utf8 "dev_") = t := by
  unfold TrimPrefix
  rw [hasPrefix_dev_append, if_pos rfl]
  simp

theorem trimPrefix_of_not_hasPrefix (s pre : GoString) (h : HasPrefix s pre = false) :
    TrimPrefix s pre = s := by
  unfold TrimPrefix
  simp [h]

/-- The physical name for Development always carries the marker. -/
theorem ddocName_dev_hasPrefix (name : GoString) :
    HasPrefix (ddocName name false) (utf8 "dev_") = true := by
  unfold ddocName
  cases h : HasPrefix name (utf8 "dev_") with
  | true => simpa using h
  | false => simpa using hasPrefix_dev_append name

/-- The physical name for Production never carries the marker. -/
theorem ddocName_prod_not_hasPrefix (name : GoString) :
    HasPrefix (ddocName name true) (utf8 "dev_") = false := by
  unfold ddocName
  cases h : HasPrefix name (utf8 "dev_") with
  | true => simpa using trimLeft_dev_not_hasPrefix name
  | false => simpa using h

/-! ## The name resolver -/

/-- C4. The claim that `ddocName` equals the reference definition for every name fails
in the Production branch: `strings.TrimLeft(name, "dev_")` treats `dev_` as a set of
bytes, so for `dev_view` it removes `dev_v` and returns `iew`, where the reference
definition (one 4-byte marker removed) gives `view`. -/
theorem ddocName_production_trims_cutset :
    ddocName (utf8 "dev_view") ProductionDesignDocumentNamespace = utf8 "iew" ∧
    physicalNameSpec (utf8 "dev_view") ProductionDesignDocumentNamespace = utf8 "view" := by
  decide

/-- C5, as stated, fails: the logical name `dev_x` resolved for Development is `dev_x`
itself, and stripping the marker from it gives `x`, not `dev_x`. -/
theorem logicalName_ddocName_not_roundtrip :
    logicalName (ddocName (utf8 "dev_x") DevelopmentDesignDocumentNamespace) = utf8 "x" ∧
    utf8 "x" ≠ utf8 "dev_x" := by
  decide

/-- C5, amended. For every logical name that does not itself begin with the marker
`dev_` and for both namespaces, stripping the marker from the physical name gives back
the logical name. -/
theorem logicalName_ddocName_roundtrip (name : GoString) (ns : DesignDocumentNamespace)
    (h : HasPrefix name (utf8 "dev_") = false) :
    logicalName (ddocName name ns) = name := by
  unfold logicalName ddocName
  cases ns with
  | true =>
    simp only [if_true, h, Bool.false_eq_true, if_false]
    exact trimPrefix_of_not_hasPrefix _ _ h
  | false =>
    simp only [Bool.false_eq_true, if_false, h, Bool.not_false, if_true]
    exact trimPrefix_dev_append name

/-- The round trip at the logical name `idx`, which carries no marker. -/
theorem logicalName_ddocName_roundtrip_witness :
    HasPrefix (utf8 "idx") (utf8 "dev_") = false ∧
    logicalName (ddocName (utf8 "idx") DevelopmentDesignDocumentNamespace) = utf8 "idx" :=
  ⟨by decide, logicalName_ddocName_roundtrip (utf8 "idx") DevelopmentDesignDocumentNamespace
    (by decide)⟩

/-- C6. For every name and both namespaces, `ddocName` is idempotent under repeated
application with the same namespace. -/
theorem ddocName_idempotent (name : GoString) (ns : DesignDocumentNamespace) :
    ddocName (ddocName name ns) ns = ddocName name ns := by
  cases ns with
  | true =>
    have h := ddocName_prod_not_hasPrefix name
    generalize ddocName name true = p at h
    unfold ddocName
    simp [h]
  | false =>
    have h := ddocName_dev_hasPrefix name
    generalize ddocName name false = p at h
    unfold ddocName
    simp [h]

/-! ## The operations, case by case -/

section cases
variable (c : Codec) (vm : ViewIndexManager) (name : GoString) (ns : DesignDocumentNamespace)
  (log : List HttpRequest)

theorem get_transport_error (e : ExtError)
    (h : vm.httpClient (log ++ [getRequest name ns]) = .error e) :
    GetDesignDocument c vm name ns log = (.error (.external e), log ++ [getRequest name ns]) := by
  simp only [getRequest] at h
  simp only [GetDesignDocument, DoHttpRequest, getRequest, h]

theorem get_status_unreadable (resp : HttpResponse) (e : GoError)
    (h : vm.httpClient (log ++ [getRequest name ns]) = .ok resp)
    (hs : resp.StatusCode ≠ 200) (hr : ReadAll resp.Body = .error e) :
    GetDesignDocument c vm name ns log = (.error e, log ++ [getRequest name ns]) := by
  simp only [getRequest] at h
  simp only [GetDesignDocument, DoHttpRequest, getRequest, h, hs, hr, ne_eq, not_false_eq_true,
    if_true]

theorem get_status_error (resp : HttpResponse) (data : GoString)
    (h : vm.httpClient (log ++ [getRequest name ns]) = .ok resp)
    (hs : resp.StatusCode ≠ 200) (hr : ReadAll resp.Body = .ok data) :
    GetDesignDocument c vm name ns log =
      (.error (.viewIndex { statusCode := resp.StatusCode, message := data,
                            indexMissing := resp.StatusCode == 404 }),
       log ++ [getRequest name ns]) := by
  simp only [getRequest] at h
  simp only [GetDesignDocument, DoHttpRequest, getRequest, h, hs, hr, ne_eq, not_false_eq_true,
    if_true]

theorem get_decode_error (resp : HttpResponse) (e : ExtError)
    (h : vm.httpClient (log ++ [getRequest name ns]) = .ok resp)
    (hs : resp.StatusCode = 200) (hd : c.decodeDesignDocument resp.Body = .error e) :
    GetDesignDocument c vm name ns log = (.error (.external e), log ++ [getRequest name ns]) := by
  simp only [getRequest] at h
  simp only [GetDesignDocument, DoHttpRequest, getRequest, h, hs, hd, ne_eq, not_true_eq_false,
    if_false]

theorem get_ok (resp : HttpResponse) (views : ViewMap)
    (h : vm.httpClient (log ++ [getRequest name ns]) = .ok resp)
    (hs : resp.StatusCode = 200) (hd : c.decodeDesignDocument resp.Body = .ok views) :
    GetDesignDocument c vm name ns log =
      (.ok { Name := logicalName (ddocName name ns), Views := views },
       log ++ [getRequest name ns]) := by
  simp only [getRequest] at h
  simp only [GetDesignDocument, DoHttpRequest, getRequest, h, hs, hd, ne_eq, not_true_eq_false,
    if_false, logicalName]

/-- Whatever the server answers, `GetDesignDocument` sends exactly one request. -/
theorem GetDesignDocument_log :
    (GetDesignDocument c vm name ns log).2 = log ++ [getRequest name ns] := by
  cases h : vm.httpClient (log ++ [getRequest name ns]) with
  | error e => rw [get_transport_error c vm name ns log e h]
  | ok resp =>
    by_cases hs : resp.StatusCode = 200
    · cases hd : c.decodeDesignDocument resp.Body with
      | error e => rw [get_decode_error c vm name ns log resp e h hs hd]
      | ok views => rw [get_ok c vm name ns log resp views h hs hd]
    · cases hr : ReadAll resp.Body with
      | error e => rw [get_status_unreadable c vm name ns log resp e h hs hr]
      | ok data => rw [get_status_error c vm name ns log resp data h hs hr]

/-- A document is returned by `GetDesignDocument` only for a 200 answer whose body decodes. -/
theorem get_ok_inv (d : DesignDocument)
    (h : (GetDesignDocument c vm name ns log).1 = .ok d) :
    ∃ resp views, vm.httpClient (log ++ [getRequest name ns]) = .ok resp ∧
      resp.StatusCode = 200 ∧ c.decodeDesignDocument resp.Body = .ok views ∧
      d = { Name := logicalName (ddocName name ns), Views := views } := by
  cases hr : vm.httpClient (log ++ [getRequest name ns]) with
  | error e => rw [get_transport_error c vm name ns log e hr] at h; cases h
  | ok resp =>
    by_cases hs : resp.StatusCode = 200
    · cases hd : c.decodeDesignDocument resp.Body with
      | error e => rw [get_decode_error c vm name ns log resp e hr hs hd] at h; cases h
      | ok views =>
        rw [get_ok c vm name ns log resp views hr hs hd] at h
        cases h
        exact ⟨resp, views, rfl, hs, hd, rfl⟩
    · cases hb : ReadAll resp.Body with
      | error e => rw [get_status_unreadable c vm name ns log resp e hr hs hb] at h; cases h
      | ok data => rw [get_status_error c vm name ns log resp data hr hs hb] at h; cases h

/-- The only error `ReadAll` returns is a collaborator's. -/
theorem readAll_error_external (b : Body) (e : GoError) (h : ReadAll b = .error e) :
    ∃ x, e = .external x := by
  unfold ReadAll at h
  split at h
  · cases h; exact ⟨_, rfl⟩
  · cases h

variable (ddoc : DesignDocument)

theorem upsert_marshal_error (e : ExtError) (hm : c.marshal ddoc.Views = .error e) :
    UpsertDesignDocument c vm ddoc ns log = (some (.external e), log) := by
  simp only [UpsertDesignDocument, hm]

theorem upsert_transport_error (data : GoString) (e : ExtError)
    (hm : c.marshal ddoc.Views = .ok data)
    (h : vm.httpClient (log ++ [putRequest ddoc.Name ns data]) = .error e) :
    UpsertDesignDocument c vm ddoc ns log =
      (some (.external e), log ++ [putRequest ddoc.Name ns data]) := by
  simp only [putRequest] at h
  simp only [UpsertDesignDocument, DoHttpRequest, putRequest, hm, h]

theorem upsert_status_unreadable (data : GoString) (resp : HttpResponse) (e : GoError)
    (hm : c.marshal ddoc.Views = .ok data)
    (h : vm.httpClient (log ++ [putRequest ddoc.Name ns data]) = .ok resp)
    (hs : resp.StatusCode ≠ 201) (hr : ReadAll resp.Body = .error e) :
    UpsertDesignDocument c vm ddoc ns log = (some e, log ++ [putRequest ddoc.Name ns data]) := by
  simp only [putRequest] at h
  simp only [UpsertDesignDocument, DoHttpRequest, putRequest, hm, h, hs, hr, ne_eq,
    not_false_eq_true, if_true]

theorem upsert_status_error (data : GoString) (resp : HttpResponse) (body : GoString)
    (hm : c.marshal ddoc.Views = .ok data)
    (h : vm.httpClient (log ++ [putRequest ddoc.Name ns data]) = .ok resp)
    (hs : resp.StatusCode ≠ 201) (hr : ReadAll resp.Body = .ok body) :
    UpsertDesignDocument c vm ddoc ns log =
      (some (.viewIndex { statusCode := resp.StatusCode, message := body }),
       log ++ [putRequest ddoc.Name ns data]) := by
  simp only [putRequest] at h
  simp only [UpsertDesignDocument, DoHttpRequest, putRequest, hm, h, hs, hr, ne_eq,
    not_false_eq_true, if_true]

theorem upsert_ok (data : GoString) (resp : HttpResponse)
    (hm : c.marshal ddoc.Views = .ok data)
    (h : vm.httpClient (log ++ [putRequest ddoc.Name ns data]) = .ok resp)
    (hs : resp.StatusCode = 201) :
    UpsertDesignDocument c vm ddoc ns log = (none, log ++ [putRequest ddoc.Name ns data]) := by
  simp only [putRequest] at h
  simp only [UpsertDesignDocument, DoHttpRequest, putRequest, hm, h, hs, ne_eq,
    not_true_eq_false, if_false]

theorem drop_transport_error (e : ExtError)
    (h : vm.httpClient (log ++ [deleteRequest name ns]) = .error e) :
    DropDesignDocument vm name ns log = (some (.external e), log ++ [deleteRequest name ns]) := by
  simp only [deleteRequest] at h
  simp only [DropDesignDocument, DoHttpRequest, deleteRequest, h]

theorem drop_status_unreadable (resp : HttpResponse) (e : GoError)
    (h : vm.httpClient (log ++ [deleteRequest name ns]) = .ok resp)
    (hs : resp.StatusCode ≠ 200) (hr : ReadAll resp.Body = .error e) :
    DropDesignDocument vm name ns log = (some e, log ++ [deleteRequest name ns]) := by
  simp only [deleteRequest] at h
  simp only [DropDesignDocument, DoHttpRequest, deleteRequest, h, hs, hr, ne_eq,
    not_false_eq_true, if_true]

theorem drop_status_error (resp : HttpResponse) (data : GoString)
    (h : vm.httpClient (log ++ [deleteRequest name ns]) = .ok resp)
    (hs : resp.StatusCode ≠ 200) (hr : ReadAll resp.Body = .ok data) :
    DropDesignDocument vm name ns log =
      (some (.viewIndex { statusCode := resp.StatusCode, message := data,
                          indexMissing := resp.StatusCode == 404 }),
       log ++ [deleteRequest name ns]) := by
  simp only [deleteRequest] at h
  simp only [DropDesignDocument, DoHttpRequest, deleteRequest, h, hs, hr, ne_eq,
    not_false_eq_true, if_true]

theorem drop_ok (resp : HttpResponse)
    (h : vm.httpClient (log ++ [deleteRequest name ns]) = .ok resp)
    (hs : resp.StatusCode = 200) :
    DropDesignDocument vm name ns log = (none, log ++ [deleteRequest name ns]) := by
  simp only [deleteRequest] at h
  simp only [DropDesignDocument, DoHttpRequest, deleteRequest, h, hs, ne_eq,
    not_true_eq_false, if_false]

/-- Whatever the server answers, `DropDesignDocument` sends exactly one request. -/
theorem drop_log :
    (DropDesignDocument vm name ns log).2 = log ++ [deleteRequest name ns] := by
  cases h : vm.httpClient (log ++ [deleteRequest name ns]) with
  | error e => rw [drop_transport_error vm name ns log e h]
  | ok resp =>
    by_cases hs : resp.StatusCode = 200
    · rw [drop_ok vm name ns log resp h hs]
    · cases hr : ReadAll resp.Body with
      | error e => rw [drop_status_unreadable vm name ns log resp e h hs hr]
      | ok data => rw [drop_status_error vm name ns log resp data h hs hr]

/-- Method `DropDesignDocument` returns nil exactly when the server answers 200. -/
theorem drop_nil_iff :
    (DropDesignDocument vm name ns log).1 = none ↔
      ∃ resp, vm.httpClient (log ++ [deleteRequest name ns]) = .ok resp ∧
        resp.StatusCode = 200 := by
  cases h : vm.httpClient (log ++ [deleteRequest name ns]) with
  | error e => simp [drop_transport_error vm name ns log e h]
  | ok resp =>
    by_cases hs : resp.StatusCode = 200
    · simp [drop_ok vm name ns log resp h hs, hs]
    · cases hr : ReadAll resp.Body with
      | error e => simp [drop_status_unreadable vm name ns log resp e h hs hr, hs]
      | ok data => simp [drop_status_error vm name ns log resp data h hs hr, hs]

end cases

/-! ## `GetDesignDocument` -/

theorem utf8_dev_dev : utf8 "dev_dev_" = utf8 "dev_" ++ utf8 "dev_" := by decide

/-- C7, as stated, fails: asked for `dev_dev_x` in the Development namespace, with the
server answering 200 and a decodable body, `GetDesignDocument` succeeds and the returned
document is named `dev_x`, which begins with the marker. -/
theorem GetDesignDocument_name_keeps_marker :
    (GetDesignDocument sampleCodec (sampleManager [response 200 emptyObject])
        (utf8 "dev_dev_x") DevelopmentDesignDocumentNamespace []).1
      = .ok { Name := utf8 "dev_x", Views := [] } ∧
    HasPrefix (utf8 "dev_x") (utf8 "dev_") = true := by
  constructor
  · rfl
  · decide

/-- C7, amended. When `GetDesignDocument` succeeds, the Name of the returned document
is the physical name with one leading marker removed; it begins with `dev_` exactly when
the namespace is Development and the requested name begins with a doubled marker
`dev_dev_` (so never for Production, and never for a requested name without a doubled
marker). -/
theorem GetDesignDocument_name (c : Codec) (vm : ViewIndexManager) (name : GoString)
    (ns : DesignDocumentNamespace) (log : List HttpRequest) (d : DesignDocument)
    (h : (GetDesignDocument c vm name ns log).1 = .ok d) :
    d.Name = logicalName (ddocName name ns) ∧
    (HasPrefix d.Name (utf8 "dev_") = true ↔
      ns = DevelopmentDesignDocumentNamespace ∧ HasPrefix name (utf8 "dev_dev_") = true) := by
  have hname : d.Name = logicalName (ddocName name ns) := by
    obtain ⟨resp, views, -, -, -, rfl⟩ := get_ok_inv c vm name ns log d h
    rfl
  refine ⟨hname, ?_⟩
  rw [hname]
  unfold logicalName DevelopmentDesignDocumentNamespace
  cases ns with
  | true =>
    rw [trimPrefix_of_not_hasPrefix _ _ (ddocName_prod_not_hasPrefix name),
      ddocName_prod_not_hasPrefix name]
    simp
  | false =>
    cases hp : HasPrefix name (utf8 "dev_") with
    | true =>
      obtain ⟨t, rfl⟩ := (hasPrefix_dev_iff name).1 hp
      have hd : ddocName (utf8 "dev_" ++ t) false = utf8 "dev_" ++ t := by
        unfold ddocName
        simp [hp]
      rw [hd, trimPrefix_dev_append, utf8_dev_dev]
      unfold HasPrefix
      simp only [List.isPrefixOf_iff_prefix, List.prefix_append_right_inj, true_and]
    | false =>
      have hd : ddocName name false = utf8 "dev_" ++ name := by
        unfold ddocName
        simp [hp]
      rw [hd, trimPrefix_dev_append, hp]
      have : HasPrefix name (utf8 "dev_dev_") = false := by
        cases hq : HasPrefix name (utf8 "dev_dev_") with
        | false => rfl
        | true =>
          unfold HasPrefix at hq hp
          rw [List.isPrefixOf_iff_prefix, utf8_dev_dev] at hq
          have : utf8 "dev_" <+: name := (List.prefix_append _ _).trans hq
          rw [← List.isPrefixOf_iff_prefix] at this
          rw [this] at hp
          cases hp
      simp [this]

/-- A successful fetch of `dev_idx` from Production, exposed as `idx`. -/
theorem GetDesignDocument_name_witness :
    (GetDesignDocument sampleCodec (sampleManager [response 200 emptyObject])
        (utf8 "dev_idx") ProductionDesignDocumentNamespace []).1
      = .ok { Name := utf8 "idx", Views := [] } ∧
    utf8 "idx" = logicalName (ddocName (utf8 "dev_idx") ProductionDesignDocumentNamespace) ∧
    (HasPrefix (utf8 "idx") (utf8 "dev_") = true ↔
      ProductionDesignDocumentNamespace = DevelopmentDesignDocumentNamespace ∧
        HasPrefix (utf8 "dev_idx") (utf8 "dev_dev_") = true) :=
  ⟨rfl, GetDesignDocument_name sampleCodec (sampleManager [response 200 emptyObject])
    (utf8 "dev_idx") ProductionDesignDocumentNamespace [] { Name := utf8 "idx", Views := [] }
    rfl⟩

/-- C9, as stated, fails in two places. A 200 response whose body is not a JSON document
(here: empty) yields no document, so "a document is returned if and only if the status
is 200" does not hold; and a response with another status (here 500) whose body breaks
while it is read yields the read error, not a view-index error. -/
theorem GetDesignDocument_status_claim_fails :
    (GetDesignDocument sampleCodec (sampleManager [response 200 []])
        (utf8 "idx") ProductionDesignDocumentNamespace []).1 = .error (.external 2) ∧
    (GetDesignDocument sampleCodec (sampleManager [brokenResponse 500 7])
        (utf8 "idx") ProductionDesignDocumentNamespace []).1 = .error (.external 7) := by
  constructor <;> rfl

/-- C9, amended. For every name, namespace and HTTP response to the request of
`GetDesignDocument`: status 200 with a decodable body yields the decoded document with
Name set to the logical name and no error; status 200 with a body that does not decode
yields the decoder's error; a status other than 200 whose body is read without error
yields a view-index error carrying that status code and the body as message, with
indexMissing = true for 404 and indexMissing = false otherwise; a status other than 200
whose body cannot be read yields the read error; a document is returned if and only if
the status is 200 and the body decodes. -/
theorem GetDesignDocument_by_status (c : Codec) (vm : ViewIndexManager) (name : GoString)
    (ns : DesignDocumentNamespace) (log : List HttpRequest) (resp : HttpResponse)
    (h : vm.httpClient (log ++ [getRequest name ns]) = .ok resp) :
    (∀ views, resp.StatusCode = 200 → c.decodeDesignDocument resp.Body = .ok views →
      (GetDesignDocument c vm name ns log).1 =
        .ok { Name := logicalName (ddocName name ns), Views := views }) ∧
    (∀ e, resp.StatusCode = 200 → c.decodeDesignDocument resp.Body = .error e →
      (GetDesignDocument c vm name ns log).1 = .error (.external e)) ∧
    (∀ data, resp.StatusCode = 404 → ReadAll resp.Body = .ok data →
      (GetDesignDocument c vm name ns log).1 =
        .error (.viewIndex { statusCode := 404, message := data, indexMissing := true,
                             publishDropFail := false })) ∧
    (∀ data, resp.StatusCode ≠ 200 → resp.StatusCode ≠ 404 → ReadAll resp.Body = .ok data →
      (GetDesignDocument c vm name ns log).1 =
        .error (.viewIndex { statusCode := resp.StatusCode, message := data,
                             indexMissing := false, publishDropFail := false })) ∧
    (∀ e, resp.StatusCode ≠ 200 → ReadAll resp.Body = .error e →
      (GetDesignDocument c vm name ns log).1 = .error e) ∧
    ((∃ d, (GetDesignDocument c vm name ns log).1 = .ok d) ↔
      resp.StatusCode = 200 ∧ ∃ views, c.decodeDesignDocument resp.Body = .ok views) := by
  refine ⟨?_, ?_, ?_, ?_, ?_, ?_⟩
  · intro views hs hd
    rw [get_ok c vm name ns log resp views h hs hd]
  · intro e hs hd
    rw [get_decode_error c vm name ns log resp e h hs hd]
  · intro data hs hr
    have hs2 : resp.StatusCode ≠ 200 := by rw [hs]; decide
    rw [get_status_error c vm name ns log resp data h hs2 hr, hs]
    rfl
  · intro data hs hs4 hr
    rw [get_status_error c vm name ns log resp data h hs hr]
    simp [hs4]
  · intro e hs hr
    rw [get_status_unreadable c vm name ns log resp e h hs hr]
  · by_cases hs : resp.StatusCode = 200
    · cases hd : c.decodeDesignDocument resp.Body with
      | error e => simp [get_decode_error c vm name ns log resp e h hs hd]
      | ok views => simp [get_ok c vm name ns log resp views h hs hd, hs]
    · cases hr : ReadAll resp.Body with
      | error e => simp [get_status_unreadable c vm name ns log resp e h hs hr, hs]
      | ok data => simp [get_status_error c vm name ns log resp data h hs hr, hs]

/-- A 404 answer with a readable body yields the index-missing error. -/
theorem GetDesignDocument_by_status_witness :
    (sampleManager [response 404 (utf8 "not_found")]).httpClient
        ([] ++ [getRequest (utf8 "idx") DevelopmentDesignDocumentNamespace])
      = response 404 (utf8 "not_found") ∧
    (GetDesignDocument sampleCodec (sampleManager [response 404 (utf8 "not_found")])
        (utf8 "idx") DevelopmentDesignDocumentNamespace []).1 =
      .error (.viewIndex { statusCode := 404, message := utf8 "not_found",
                           indexMissing := true, publishDropFail := false }) :=
  ⟨rfl, (GetDesignDocument_by_status sampleCodec
    (sampleManager [response 404 (utf8 "not_found")])
    (utf8 "idx") DevelopmentDesignDocumentNamespace []
    { StatusCode := 404, Body := { content := utf8 "not_found", readErr := none } }
    rfl).2.2.1 (utf8 "not_found") rfl rfl⟩

/-! ## `UpsertDesignDocument` -/

/-- C10, as stated, fails for a response whose body breaks while it is read: for status
500 with such a body `UpsertDesignDocument` returns the read error, not a view-index
error carrying the status. -/
theorem UpsertDesignDocument_unreadable_body :
    (UpsertDesignDocument sampleCodec (sampleManager [brokenResponse 500 7])
        { Name := utf8 "idx", Views := [] } ProductionDesignDocumentNamespace []).1
      = some (.external 7) := by
  rfl

/-- C10, amended. `UpsertDesignDocument` returns nil if and only if the request was
delivered and the response status is exactly 201; for every other status (including
200) whose body is read without error it returns a view-index error carrying that status
and body, and the read error when the body cannot be read. Exactly one request is sent
when the document serializes (none when it does not): a PUT whose body is the
serialization of the document's views, taken before the physical name is computed and
independent of Name and namespace, and whose path uses
ddocName(document.Name, namespace). -/
theorem UpsertDesignDocument_result (c : Codec) (vm : ViewIndexManager)
    (ddoc : DesignDocument) (ns : DesignDocumentNamespace) (log : List HttpRequest) :
    ((UpsertDesignDocument c vm ddoc ns log).1 = none ↔
      ∃ data resp, c.marshal ddoc.Views = .ok data ∧
        vm.httpClient (log ++ [putRequest ddoc.Name ns data]) = .ok resp ∧
        resp.StatusCode = 201) ∧
    (∀ data resp body, c.marshal ddoc.Views = .ok data →
      vm.httpClient (log ++ [putRequest ddoc.Name ns data]) = .ok resp →
      resp.StatusCode ≠ 201 → ReadAll resp.Body = .ok body →
      (UpsertDesignDocument c vm ddoc ns log).1 =
        some (.viewIndex { statusCode := resp.StatusCode, message := body,
                           indexMissing := false, publishDropFail := false })) ∧
    (∀ data resp e, c.marshal ddoc.Views = .ok data →
      vm.httpClient (log ++ [putRequest ddoc.Name ns data]) = .ok resp →
      resp.StatusCode ≠ 201 → ReadAll resp.Body = .error e →
      (UpsertDesignDocument c vm ddoc ns log).1 = some e) ∧
    (∀ data, c.marshal ddoc.Views = .ok data →
      (UpsertDesignDocument c vm ddoc ns log).2 =
        log ++ [{ Service := .CapiService, Path := utf8 "/_design/" ++ ddocName ddoc.Name ns,
                  Method := utf8 "PUT", Body := data }]) ∧
    (∀ e, c.marshal ddoc.Views = .error e →
      UpsertDesignDocument c vm ddoc ns log = (some (.external e), log)) ∧
    (∀ (other : DesignDocument) (ns2 : DesignDocumentNamespace), other.Views = ddoc.Views →
      ((UpsertDesignDocument c vm other ns2 log).2.drop log.length).map (fun r => r.Body) =
        ((UpsertDesignDocument c vm ddoc ns log).2.drop log.length).map (fun r => r.Body)) := by
  have hlog : ∀ (d : DesignDocument) (n : DesignDocumentNamespace) (data : GoString),
      c.marshal d.Views = .ok data →
      (UpsertDesignDocument c vm d n log).2 = log ++ [putRequest d.Name n data] := by
    intro d n data hm
    cases h : vm.httpClient (log ++ [putRequest d.Name n data]) with
    | error e => rw [upsert_transport_error c vm n log d data e hm h]
    | ok resp =>
      by_cases hs : resp.StatusCode = 201
      · rw [upsert_ok c vm n log d data resp hm h hs]
      · cases hr : ReadAll resp.Body with
        | error e => rw [upsert_status_unreadable c vm n log d data resp e hm h hs hr]
        | ok body => rw [upsert_status_error c vm n log d data resp body hm h hs hr]
  refine ⟨?_, ?_, ?_, ?_, ?_, ?_⟩
  · cases hm : c.marshal ddoc.Views with
    | error e => simp [upsert_marshal_error c vm ns log ddoc e hm]
    | ok data =>
      cases h : vm.httpClient (log ++ [putRequest ddoc.Name ns data]) with
      | error e => simp [upsert_transport_error c vm ns log ddoc data e hm h, h]
      | ok resp =>
        by_cases hs : resp.StatusCode = 201
        · simp [upsert_ok c vm ns log ddoc data resp hm h hs, h, hs]
        · cases hr : ReadAll resp.Body with
          | error e => simp [upsert_status_unreadable c vm ns log ddoc data resp e hm h hs hr, h, hs]
          | ok body => simp [upsert_status_error c vm ns log ddoc data resp body hm h hs hr, h, hs]
  · intro data resp body hm h hs hr
    rw [upsert_status_error c vm ns log ddoc data resp body hm h hs hr]
  · intro data resp e hm h hs hr
    rw [upsert_status_unreadable c vm ns log ddoc data resp e hm h hs hr]
  · intro data hm
    rw [hlog ddoc ns data hm]
    rfl
  · intro e hm
    exact upsert_marshal_error c vm ns log ddoc e hm
  · intro other ns2 hv
    cases hm : c.marshal ddoc.Views with
    | error e =>
      rw [upsert_marshal_error c vm ns log ddoc e hm,
        upsert_marshal_error c vm ns2 log other e (hv ▸ hm)]
    | ok data =>
      rw [hlog ddoc ns data hm, hlog other ns2 data (hv ▸ hm)]
      simp [putRequest]

/-- A 200 answer to the PUT is a failure carrying status and body. -/
theorem UpsertDesignDocument_result_witness :
    (UpsertDesignDocument sampleCodec (sampleManager [response 200 (utf8 "ok")])
        { Name := utf8 "dev_idx", Views := [] } DevelopmentDesignDocumentNamespace []).1 =
      some (.viewIndex { statusCode := 200, message := utf8 "ok", indexMissing := false,
                         publishDropFail := false }) :=
  (UpsertDesignDocument_result sampleCodec (sampleManager [response 200 (utf8 "ok")])
    { Name := utf8 "dev_idx", Views := [] } DevelopmentDesignDocumentNamespace []).2.1
    emptyObject { StatusCode := 200, Body := { content := utf8 "ok", readErr := none } }
    (utf8 "ok") rfl rfl (by decide) rfl

/-! ## `PublishDesignDocument` -/

/-- Result of `PublishDesignDocument` when the development copy is reported missing. -/
theorem publish_of_get_missing (c : Codec) (vm : ViewIndexManager) (name : GoString)
    (log : List HttpRequest) (e : viewIndexError)
    (h : (GetDesignDocument c vm name false log).1 = .error (.viewIndex e))
    (hm : e.indexMissing = true) :
    PublishDesignDocument c vm name log =
      (some (.viewIndex
        { message := utf8 "Development design document does not exist",
          indexMissing := true }),
       log ++ [getRequest name false]) := by
  have hl := GetDesignDocument_log c vm name false log
  unfold PublishDesignDocument
  generalize GetDesignDocument c vm name false log = r at h hl
  obtain ⟨r1, r2⟩ := r
  simp only at h hl
  subst h hl
  simp only [hm, if_true]

/-- Result of `PublishDesignDocument` when fetching the development copy fails otherwise. -/
theorem publish_of_get_error (c : Codec) (vm : ViewIndexManager) (name : GoString)
    (log : List HttpRequest) (err : GoError)
    (h : (GetDesignDocument c vm name false log).1 = .error err)
    (hm : ∀ e, err = .viewIndex e → e.indexMissing = false) :
    PublishDesignDocument c vm name log = (some err, log ++ [getRequest name false]) := by
  have hl := GetDesignDocument_log c vm name false log
  unfold PublishDesignDocument
  generalize GetDesignDocument c vm name false log = r at h hl
  obtain ⟨r1, r2⟩ := r
  simp only at h hl
  subst h hl
  cases err with
  | external e => rfl
  | wrapped cause msg => rfl
  | viewIndex e => simp only [hm e rfl, Bool.false_eq_true, if_false]

/-- Result of `PublishDesignDocument` once the development copy has been fetched. -/
theorem publish_of_get_ok (c : Codec) (vm : ViewIndexManager) (name : GoString)
    (log : List HttpRequest) (devdoc : DesignDocument)
    (h : (GetDesignDocument c vm name false log).1 = .ok devdoc) :
    PublishDesignDocument c vm name log =
      match UpsertDesignDocument c vm devdoc true (log ++ [getRequest name false]) with
      | (some err, log) => (some (.wrapped err (utf8 "failed to create ")), log)
      | (none, log) =>
        match DropDesignDocument vm devdoc.Name false log with
        | (some err, log) =>
          (some (.viewIndex
            { message := utf8 "failed to drop development index: " ++ c.errorText err,
              publishDropFail := true }), log)
        | (none, log) => (none, log) := by
  have hl := GetDesignDocument_log c vm name false log
  unfold PublishDesignDocument
  generalize GetDesignDocument c vm name false log = r at h hl
  obtain ⟨r1, r2⟩ := r
  simp only at h hl
  subst h hl
  rfl

theorem utf8_design_dev : utf8 "/_design/dev_" = utf8 "/_design/" ++ utf8 "dev_" := by decide

theorem addressesDevelopment_iff (r : HttpRequest) (n : GoString)
    (h : r.Path = utf8 "/_design/" ++ n) :
    addressesDevelopment r = HasPrefix n (utf8 "dev_") := by
  unfold addressesDevelopment HasPrefix
  rw [h, utf8_design_dev, Bool.eq_iff_iff, List.isPrefixOf_iff_prefix,
    List.isPrefixOf_iff_prefix, List.prefix_append_right_inj]

theorem addressesProduction_iff (r : HttpRequest) (n : GoString)
    (h : r.Path = utf8 "/_design/" ++ n) :
    addressesProduction r = !HasPrefix n (utf8 "dev_") := by
  have h1 : HasPrefix r.Path (utf8 "/_design/") = true := by
    unfold HasPrefix
    rw [h, List.isPrefixOf_iff_prefix]
    exact List.prefix_append _ _
  have h2 := addressesDevelopment_iff r n h
  unfold addressesDevelopment at h2
  unfold addressesProduction
  rw [h1, h2, Bool.true_and]

/-- C3, as stated, fails when the 404 answer's body breaks while it is read: then
`GetDesignDocument` returns the read error, and `PublishDesignDocument` returns that
error instead of a source-missing error. -/
theorem publish_404_unreadable_body :
    PublishDesignDocument sampleCodec (sampleManager [brokenResponse 404 7]) (utf8 "idx") []
      = (some (.external 7), [getRequest (utf8 "idx") DevelopmentDesignDocumentNamespace]) := by
  rfl

/-- C3, amended. If the GET of the development copy answers 404 and the body of that
answer is read without error, `PublishDesignDocument` returns a source-missing error
(indexMissing = true, publishDropFail = false) and issues no PUT and no DELETE; if the
GET fails in any other way (transport error, decode error, a body that cannot be read,
or a status other than 200 and 404), it returns exactly the error `GetDesignDocument`
produced, unchanged, and likewise issues no further request. -/
theorem publish_source_failure (c : Codec) (vm : ViewIndexManager) (name : GoString)
    (log : List HttpRequest) :
    (∀ resp data, vm.httpClient (log ++ [getRequest name false]) = .ok resp →
      resp.StatusCode = 404 → ReadAll resp.Body = .ok data →
      PublishDesignDocument c vm name log =
        (some (.viewIndex
          { statusCode := 0, message := utf8 "Development design document does not exist",
            indexMissing := true, publishDropFail := false }),
         log ++ [getRequest name false])) ∧
    (∀ err, (GetDesignDocument c vm name false log).1 = .error err →
      (∀ resp, vm.httpClient (log ++ [getRequest name false]) = .ok resp →
        resp.StatusCode = 404 → ∃ e, ReadAll resp.Body = .error e) →
      PublishDesignDocument c vm name log = (some err, log ++ [getRequest name false])) := by
  constructor
  · intro resp data h hs hr
    have hs2 : resp.StatusCode ≠ 200 := by rw [hs]; decide
    have hg := get_status_error c vm name false log resp data h hs2 hr
    exact publish_of_get_missing c vm name log _ (by rw [hg]) (by simp [hs])
  · intro err hg hno
    apply publish_of_get_error c vm name log err hg
    intro e he
    subst he
    cases hr : vm.httpClient (log ++ [getRequest name false]) with
    | error x =>
      rw [get_transport_error c vm name false log x hr] at hg
      cases hg
    | ok resp =>
      by_cases hs : resp.StatusCode = 200
      · cases hd : c.decodeDesignDocument resp.Body with
        | error x =>
          rw [get_decode_error c vm name false log resp x hr hs hd] at hg
          cases hg
        | ok views =>
          rw [get_ok c vm name false log resp views hr hs hd] at hg
          cases hg
      · cases hb : ReadAll resp.Body with
        | error x =>
          obtain ⟨y, rfl⟩ := readAll_error_external _ _ hb
          rw [get_status_unreadable c vm name false log resp _ hr hs hb] at hg
          cases hg
        | ok data =>
          rw [get_status_error c vm name false log resp data hr hs hb] at hg
          have h404 : resp.StatusCode ≠ 404 := by
            intro h4
            obtain ⟨x, hx⟩ := hno resp hr h4
            rw [hb] at hx
            cases hx
          cases hg
          simp [h404]

/-- A 404 answer to the GET ends the publication with the source-missing error after one
request. -/
theorem publish_source_failure_witness :
    PublishDesignDocument sampleCodec (sampleManager [response 404 (utf8 "not_found")])
        (utf8 "idx") [] =
      (some (.viewIndex
        { statusCode := 0, message := utf8 "Development design document does not exist",
          indexMissing := true, publishDropFail := false }),
       [] ++ [getRequest (utf8 "idx") false]) :=
  (publish_source_failure sampleCodec (sampleManager [response 404 (utf8 "not_found")])
    (utf8 "idx") []).1
    { StatusCode := 404, Body := { content := utf8 "not_found", readErr := none } }
    (utf8 "not_found") rfl rfl rfl

/-- C1. For every name and every server behaviour, the requests `PublishDesignDocument`
issues form a prefix of [GET development copy, PUT production copy, DELETE development
copy]: the GET is always the first request; the PUT is issued only if the GET answered
200 and its body decoded; the DELETE is issued only if the PUT answered 201; and nothing
is issued after the DELETE, whatever the DELETE's outcome. The GET and the DELETE
address a development copy, the PUT a production copy. -/
theorem publish_requests_prefix (c : Codec) (vm : ViewIndexManager) (name : GoString)
    (log : List HttpRequest) :
    (addressesDevelopment (getRequest name false) = true ∧
      addressesDevelopment (deleteRequest (logicalName (ddocName name false)) false) = true ∧
      ∀ data, addressesProduction
        (putRequest (logicalName (ddocName name false)) true data) = true) ∧
    ((PublishDesignDocument c vm name log).2 = log ++ [getRequest name false] ∨
     ∃ r1 views data,
      vm.httpClient (log ++ [getRequest name false]) = .ok r1 ∧ r1.StatusCode = 200 ∧
      c.decodeDesignDocument r1.Body = .ok views ∧ c.marshal views = .ok data ∧
      ((PublishDesignDocument c vm name log).2 =
          log ++ [getRequest name false,
                  putRequest (logicalName (ddocName name false)) true data] ∨
       ∃ r2,
        vm.httpClient (log ++ [getRequest name false,
          putRequest (logicalName (ddocName name false)) true data]) = .ok r2 ∧
        r2.StatusCode = 201 ∧
        (PublishDesignDocument c vm name log).2 =
          log ++ [getRequest name false,
                  putRequest (logicalName (ddocName name false)) true data,
                  deleteRequest (logicalName (ddocName name false)) false])) := by
  refine ⟨⟨?_, ?_, ?_⟩, ?_⟩
  · rw [addressesDevelopment_iff _ (ddocName name false) rfl]
    exact ddocName_dev_hasPrefix name
  · rw [addressesDevelopment_iff _ (ddocName (logicalName (ddocName name false)) false) rfl]
    exact ddocName_dev_hasPrefix _
  · intro data
    rw [addressesProduction_iff _ (ddocName (logicalName (ddocName name false)) true) rfl,
      ddocName_prod_not_hasPrefix]
    rfl
  · cases hg : (GetDesignDocument c vm name false log).1 with
    | error err =>
      left
      by_cases hm : ∀ e, err = .viewIndex e → e.indexMissing = false
      · rw [publish_of_get_error c vm name log err hg hm]
      · push_neg at hm
        obtain ⟨e, rfl, he⟩ := hm
        rw [publish_of_get_missing c vm name log e hg (by simpa using he)]
    | ok devdoc =>
      obtain ⟨r1, views, hr1, hs, hd, hdev⟩ := get_ok_inv c vm name false log devdoc hg
      subst hdev
      rw [publish_of_get_ok c vm name log _ hg]
      generalize hdn : logicalName (ddocName name false) = dn
      generalize hlg : log ++ [getRequest name false] = lg
      have hlg2 : ∀ x y : List HttpRequest, lg ++ x = log ++ y ↔ getRequest name false :: x = y := by
        intro x y
        rw [← hlg, List.append_assoc, List.append_cancel_left_eq]
        rfl
      cases hm : c.marshal views with
      | error e =>
        left
        rw [upsert_marshal_error c vm true lg ⟨dn, views⟩ e hm]
      | ok data =>
        right
        refine ⟨r1, views, data, hlg ▸ hr1, hs, hd, hm, ?_⟩
        cases hp : vm.httpClient (lg ++ [putRequest dn true data]) with
        | error e =>
          left
          rw [upsert_transport_error c vm true lg ⟨dn, views⟩ data e hm hp]
          exact (hlg2 _ _).2 rfl
        | ok r2 =>
          by_cases hs2 : r2.StatusCode = 201
          · right
            refine ⟨r2, ?_, hs2, ?_⟩
            · rw [← hp, ← hlg, List.append_assoc]
              rfl
            · rw [upsert_ok c vm true lg ⟨dn, views⟩ data r2 hm hp hs2]
              have hl := drop_log vm dn false (lg ++ [putRequest dn true data])
              simp only
              generalize DropDesignDocument vm dn false (lg ++ [putRequest dn true data]) = r
                at hl
              obtain ⟨x, y⟩ := r
              simp only at hl
              subst hl
              have : lg ++ [putRequest dn true data] ++ [deleteRequest dn false] =
                  log ++ [getRequest name false, putRequest dn true data,
                    deleteRequest dn false] := by
                rw [List.append_assoc]
                exact (hlg2 _ _).2 rfl
              cases x <;> exact this
          · left
            cases hb : ReadAll r2.Body with
            | error e =>
              rw [upsert_status_unreadable c vm true lg ⟨dn, views⟩ data r2 e hm hp hs2 hb]
              exact (hlg2 _ _).2 rfl
            | ok body =>
              rw [upsert_status_error c vm true lg ⟨dn, views⟩ data r2 body hm hp hs2 hb]
              exact (hlg2 _ _).2 rfl

/-- C2. For every name, if the GET of the development copy succeeds (200, body decoded),
the PUT to production succeeds (201) and the DELETE of the development copy fails in any
way (transport error or any status other than 200, including 404), then
`PublishDesignDocument` returns a view-index error marked as a cleanup failure
(publishDropFail = true) and not marked as index-missing (indexMissing = false); in
particular it does not return nil. -/
theorem publish_cleanup_failure (c : Codec) (vm : ViewIndexManager) (name : GoString)
    (log : List HttpRequest) (r1 r2 : HttpResponse) (views : ViewMap) (data : GoString)
    (hget : vm.httpClient (log ++ [getRequest name false]) = .ok r1)
    (h200 : r1.StatusCode = 200)
    (hdec : c.decodeDesignDocument r1.Body = .ok views)
    (hmar : c.marshal views = .ok data)
    (hput : vm.httpClient (log ++ [getRequest name false,
      putRequest (logicalName (ddocName name false)) true data]) = .ok r2)
    (h201 : r2.StatusCode = 201)
    (hdel : ∀ r3, vm.httpClient (log ++ [getRequest name false,
      putRequest (logicalName (ddocName name false)) true data,
      deleteRequest (logicalName (ddocName name false)) false]) = .ok r3 →
      r3.StatusCode ≠ 200) :
    ∃ e, (PublishDesignDocument c vm name log).1 = some (.viewIndex e) ∧
      e.publishDropFail = true ∧ e.indexMissing = false ∧
      (PublishDesignDocument c vm name log).1 ≠ none := by
  have hg := get_ok c vm name false log r1 views hget h200 hdec
  rw [publish_of_get_ok c vm name log _ (by rw [hg])]
  generalize logicalName (ddocName name false) = dn at hput hdel ⊢
  have e1 : log ++ [getRequest name false, putRequest dn true data] =
      log ++ [getRequest name false] ++ [putRequest dn true data] := by simp
  have e2 : log ++ [getRequest name false, putRequest dn true data, deleteRequest dn false] =
      log ++ [getRequest name false] ++ [putRequest dn true data] ++ [deleteRequest dn false] := by
    simp
  rw [e1] at hput
  rw [e2] at hdel
  generalize log ++ [getRequest name false] = lg at hput hdel ⊢
  rw [upsert_ok c vm true lg ⟨dn, views⟩ data r2 hmar hput h201]
  simp only
  have hn := drop_nil_iff vm dn false (lg ++ [putRequest dn true data])
  generalize DropDesignDocument vm dn false (lg ++ [putRequest dn true data]) = r at hn
  obtain ⟨x, y⟩ := r
  cases x with
  | none =>
    obtain ⟨r3, h3, hs3⟩ := hn.1 rfl
    exact absurd hs3 (hdel r3 h3)
  | some err =>
    exact ⟨_, rfl, rfl, rfl, by simp⟩

/-- A run where the GET answers 200, the PUT 201 and the DELETE 404. -/
theorem publish_cleanup_failure_witness :
    ∃ e, (PublishDesignDocument sampleCodec
        (sampleManager [response 200 emptyObject, response 201 [], response 404 []])
        (utf8 "idx") []).1 = some (.viewIndex e) ∧
      e.publishDropFail = true ∧ e.indexMissing = false ∧
      (PublishDesignDocument sampleCodec
        (sampleManager [response 200 emptyObject, response 201 [], response 404 []])
        (utf8 "idx") []).1 ≠ none :=
  publish_cleanup_failure sampleCodec
    (sampleManager [response 200 emptyObject, response 201 [], response 404 []])
    (utf8 "idx") [] { StatusCode := 200, Body := { content := emptyObject, readErr := none } }
    { StatusCode := 201, Body := { content := [], readErr := none } } [] emptyObject
    rfl rfl rfl rfl rfl rfl
    (by
      intro r3 h3
      have : r3 = { StatusCode := 404, Body := { content := [], readErr := none } } :=
        (Except.ok.inj h3).symm
      rw [this]
      decide)

/-! ## `GetAllDesignDocuments` -/

/-- The loop of `GetAllDesignDocuments` for the Development namespace keeps no row: the
Name it tests is the one of the decoded body, which the decoder never sets. -/
theorem collectRows_development (rows : List (GoString × ViewMap))
    (ddocs : List DesignDocument) :
    collectRows DevelopmentDesignDocumentNamespace (decodedRows rows) ddocs = some ddocs := by
  induction rows generalizing ddocs with
  | nil => rfl
  | cons r rest ih =>
    have : decodedRows (r :: rest) =
        { Id := r.1, Json := { Name := [], Views := r.2 } } :: decodedRows rest := rfl
    rw [this]
    unfold collectRows
    have hp : HasPrefix [] (utf8 "dev_") = false := by decide
    simp only [hp, DevelopmentDesignDocumentNamespace]
    exact ih ddocs

/-- C8. The claim fails on the code. For a 200 listing holding the development row
`_design/dev_a` and the production row `_design/b`, a Development listing returns no row
at all where the claim expects the row `a`, and a Production listing returns both rows,
`a` and `b`, where the claim expects only `b`: the loop tests the marker on the Name of
the decoded body, which is never set, instead of on the storage identifier. -/
theorem GetAllDesignDocuments_ignores_namespace :
    (GetAllDesignDocuments (listingCodec sampleRows)
        (sampleManager [response 200 (utf8 "rows")])
        DevelopmentDesignDocumentNamespace []).1 = .ok [] ∧
    listingSpec DevelopmentDesignDocumentNamespace sampleRows =
      [{ Name := utf8 "a", Views := [] }] ∧
    (GetAllDesignDocuments (listingCodec sampleRows)
        (sampleManager [response 200 (utf8 "rows")])
        ProductionDesignDocumentNamespace []).1 =
      .ok [{ Name := utf8 "a", Views := [] }, { Name := utf8 "b", Views := [] }] ∧
    listingSpec ProductionDesignDocumentNamespace sampleRows =
      [{ Name := utf8 "b", Views := [] }] := by
  refine ⟨?_, ?_, ?_, ?_⟩
  · rfl
  · decide
  · rfl
  · decide

/-- The loop of `GetAllDesignDocuments` for the Production namespace keeps every row, and
it panics exactly when some row's storage identifier is shorter than 8 bytes. -/
theorem collectRows_production_panic_iff (rows : List (GoString × ViewMap))
    (ddocs : List DesignDocument) :
    collectRows ProductionDesignDocumentNamespace (decodedRows rows) ddocs = none ↔
      ∃ r ∈ rows, r.1.length < 8 := by
  unfold ProductionDesignDocumentNamespace
  induction rows generalizing ddocs with
  | nil => simp [decodedRows, collectRows]
  | cons r rest ih =>
    have hd : decodedRows (r :: rest) =
        { Id := r.1, Json := { Name := [], Views := r.2 } } :: decodedRows rest := rfl
    have hp : HasPrefix [] (utf8 "dev_") = false := by decide
    rw [hd]
    unfold collectRows
    simp only [hp, Bool.not_false, beq_self_eq_true, if_true]
    unfold sliceFrom
    by_cases hl : 8 ≤ r.1.length
    · simp only [hl, if_true]
      rw [ih]
      simp only [List.mem_cons, exists_eq_or_imp]
      constructor
      · intro h; exact Or.inr h
      · rintro (h | h)
        · omega
        · exact h
    · simp only [hl, if_false, List.mem_cons, exists_eq_or_imp, true_iff]
      exact Or.inl (by omega)

/-- C19. The claim fails on the code. For a decoded 200 listing with a row whose storage
identifier is empty, or is the 7-byte `_design`, a Production listing evaluates `Id[8:]`
on that identifier and ends in the run-time panic "slice bounds out of range" instead of
returning a result or an error; nothing checks the length before the slice. -/
theorem GetAllDesignDocuments_short_id_panics :
    (GetAllDesignDocuments (listingCodec rowsWithoutId)
        (sampleManager [response 200 (utf8 "rows")])
        ProductionDesignDocumentNamespace []).1 = .panic ∧
    (GetAllDesignDocuments (listingCodec rowsWithShortId)
        (sampleManager [response 200 (utf8 "rows")])
        ProductionDesignDocumentNamespace []).1 = .panic ∧
    sliceFrom (utf8 "_design") 8 = none := by
  refine ⟨?_, ?_, ?_⟩
  · rfl
  · rfl
  · decide

/-! ## The documents `PublishDesignDocument` addresses -/

/-- The logical name of the Development physical name carries the marker exactly when
the requested name carries it twice. -/
theorem logicalName_dev_hasPrefix (name : GoString) :
    HasPrefix (logicalName (ddocName name false)) (utf8 "dev_") =
      HasPrefix name (utf8 "dev_dev_") := by
  unfold logicalName
  cases hp : HasPrefix name (utf8 "dev_") with
  | true =>
    obtain ⟨t, rfl⟩ := (hasPrefix_dev_iff name).1 hp
    have hd : ddocName (utf8 "dev_" ++ t) false = utf8 "dev_" ++ t := by
      unfold ddocName
      simp [hp]
    rw [hd, trimPrefix_dev_append, utf8_dev_dev]
    unfold HasPrefix
    rw [Bool.eq_iff_iff, List.isPrefixOf_iff_prefix, List.isPrefixOf_iff_prefix,
      List.prefix_append_right_inj]
  | false =>
    have hd : ddocName name false = utf8 "dev_" ++ name := by
      unfold ddocName
      simp [hp]
    rw [hd, trimPrefix_dev_append, hp]
    cases hq : HasPrefix name (utf8 "dev_dev_") with
    | false => rfl
    | true =>
      unfold HasPrefix at hq hp
      rw [List.isPrefixOf_iff_prefix, utf8_dev_dev] at hq
      have : utf8 "dev_" <+: name := (List.prefix_append _ _).trans hq
      rw [← List.isPrefixOf_iff_prefix] at this
      rw [this] at hp
      cases hp

/-- The Development physical name is the marker followed by its logical name. -/
theorem dev_append_logicalName (name : GoString) :
    utf8 "dev_" ++ logicalName (ddocName name false) = ddocName name false := by
  obtain ⟨t, ht⟩ := (hasPrefix_dev_iff _).1 (ddocName_dev_hasPrefix name)
  unfold logicalName
  rw [ht, trimPrefix_dev_append]

/-- The requests `PublishDesignDocument` issues are the GET alone, the GET and the PUT,
or the GET, the PUT and the DELETE. -/
theorem publish_issued (c : Codec) (vm : ViewIndexManager) (name : GoString)
    (log : List HttpRequest) :
    (PublishDesignDocument c vm name log).2 = log ++ [getRequest name false] ∨
    (∃ data, (PublishDesignDocument c vm name log).2 =
      log ++ [getRequest name false,
              putRequest (logicalName (ddocName name false)) true data]) ∨
    (∃ data, (PublishDesignDocument c vm name log).2 =
      log ++ [getRequest name false,
              putRequest (logicalName (ddocName name false)) true data,
              deleteRequest (logicalName (ddocName name false)) false]) := by
  cases hg : (GetDesignDocument c vm name false log).1 with
  | error err =>
    left
    by_cases hm : ∀ e, err = .viewIndex e → e.indexMissing = false
    · rw [publish_of_get_error c vm name log err hg hm]
    · push_neg at hm
      obtain ⟨e, rfl, he⟩ := hm
      rw [publish_of_get_missing c vm name log e hg (by simpa using he)]
  | ok devdoc =>
    obtain ⟨r1, views, hr1, hs, hd, hdev⟩ := get_ok_inv c vm name false log devdoc hg
    subst hdev
    rw [publish_of_get_ok c vm name log _ hg]
    generalize hdn : logicalName (ddocName name false) = dn
    generalize hlg : log ++ [getRequest name false] = lg
    have hlg2 : ∀ x y : List HttpRequest,
        lg ++ x = log ++ y ↔ getRequest name false :: x = y := by
      intro x y
      rw [← hlg, List.append_assoc, List.append_cancel_left_eq]
      rfl
    cases hm : c.marshal views with
    | error e =>
      left
      rw [upsert_marshal_error c vm true lg ⟨dn, views⟩ e hm]
    | ok data =>
      right
      cases hp : vm.httpClient (lg ++ [putRequest dn true data]) with
      | error e =>
        left
        rw [upsert_transport_error c vm true lg ⟨dn, views⟩ data e hm hp]
        exact ⟨data, (hlg2 _ _).2 rfl⟩
      | ok r2 =>
        by_cases hs2 : r2.StatusCode = 201
        · right
          rw [upsert_ok c vm true lg ⟨dn, views⟩ data r2 hm hp hs2]
          have hl := drop_log vm dn false (lg ++ [putRequest dn true data])
          simp only
          generalize DropDesignDocument vm dn false (lg ++ [putRequest dn true data]) = r
            at hl
          obtain ⟨x, y⟩ := r
          simp only at hl
          subst hl
          have : lg ++ [putRequest dn true data] ++ [deleteRequest dn false] =
              log ++ [getRequest name false, putRequest dn true data,
                deleteRequest dn false] := by
            rw [List.append_assoc]
            exact (hlg2 _ _).2 rfl
          cases x <;> exact ⟨data, this⟩
        · left
          cases hb : ReadAll r2.Body with
          | error e =>
            rw [upsert_status_unreadable c vm true lg ⟨dn, views⟩ data r2 e hm hp hs2 hb]
            exact ⟨data, (hlg2 _ _).2 rfl⟩
          | ok body =>
            rw [upsert_status_error c vm true lg ⟨dn, views⟩ data r2 body hm hp hs2 hb]
            exact ⟨data, (hlg2 _ _).2 rfl⟩

/-- C18, as stated, fails for a name that carries the marker twice. Publishing
`dev_dev_x` with every step succeeding sends GET `/_design/dev_dev_x`, PUT `/_design/x`
and DELETE `/_design/dev_x`: the copy that is dropped is not the one that was fetched,
and the PUT does not address the fetched physical name with one marker removed
(`dev_x`). -/
theorem publish_doubled_marker_paths :
    (PublishDesignDocument sampleCodec
        (sampleManager [response 200 emptyObject, response 201 [], response 200 []])
        (utf8 "dev_dev_x") []).2.map (fun r => (r.Method, r.Path)) =
      [(utf8 "GET", utf8 "/_design/dev_dev_x"), (utf8 "PUT", utf8 "/_design/x"),
       (utf8 "DELETE", utf8 "/_design/dev_x")] ∧
    logicalName (utf8 "dev_dev_x") = utf8 "dev_x" := by
  constructor
  · rfl
  · decide

/-- C18, amended. For every name passed to `PublishDesignDocument` that does not begin
with a doubled marker `dev_dev_` (a name beginning with `dev_` once included), the
requests address one consistent document: the GET and the DELETE carry the same physical
name, which bears the marker, and the PUT carries that physical name with its single
marker removed. -/
theorem publish_paths_consistent (c : Codec) (vm : ViewIndexManager) (name : GoString)
    (log : List HttpRequest) (h : HasPrefix name (utf8 "dev_dev_") = false) :
    ∃ issued, (PublishDesignDocument c vm name log).2 = log ++ issued ∧
      HasPrefix (ddocName name false) (utf8 "dev_") = true ∧
      ∀ r ∈ issued,
        (r.Method = utf8 "GET" ∨ r.Method = utf8 "PUT" ∨ r.Method = utf8 "DELETE") ∧
        (r.Method = utf8 "GET" → r.Path = utf8 "/_design/" ++ ddocName name false) ∧
        (r.Method = utf8 "DELETE" → r.Path = utf8 "/_design/" ++ ddocName name false) ∧
        (r.Method = utf8 "PUT" →
          r.Path = utf8 "/_design/" ++ logicalName (ddocName name false)) := by
  have hl : HasPrefix (logicalName (ddocName name false)) (utf8 "dev_") = false := by
    rw [logicalName_dev_hasPrefix, h]
  have hput : ddocName (logicalName (ddocName name false)) true =
      logicalName (ddocName name false) := by
    generalize logicalName (ddocName name false) = l at hl
    unfold ddocName
    simp [hl]
  have hdel : ddocName (logicalName (ddocName name false)) false = ddocName name false := by
    have e := dev_append_logicalName name
    generalize logicalName (ddocName name false) = l at hl e ⊢
    rw [← e]
    unfold ddocName
    simp [hl]
  have hG : utf8 "GET" ≠ utf8 "PUT" ∧ utf8 "GET" ≠ utf8 "DELETE" ∧
      utf8 "PUT" ≠ utf8 "DELETE" := by decide
  have hg : ∀ r, r = getRequest name false →
      (r.Method = utf8 "GET" ∨ r.Method = utf8 "PUT" ∨ r.Method = utf8 "DELETE") ∧
      (r.Method = utf8 "GET" → r.Path = utf8 "/_design/" ++ ddocName name false) ∧
      (r.Method = utf8 "DELETE" → r.Path = utf8 "/_design/" ++ ddocName name false) ∧
      (r.Method = utf8 "PUT" →
        r.Path = utf8 "/_design/" ++ logicalName (ddocName name false)) := by
    rintro r rfl
    refine ⟨Or.inl rfl, fun _ => rfl, fun _ => rfl, fun hm => ?_⟩
    exact absurd hm hG.1
  have hp : ∀ r data, r = putRequest (logicalName (ddocName name false)) true data →
      (r.Method = utf8 "GET" ∨ r.Method = utf8 "PUT" ∨ r.Method = utf8 "DELETE") ∧
      (r.Method = utf8 "GET" → r.Path = utf8 "/_design/" ++ ddocName name false) ∧
      (r.Method = utf8 "DELETE" → r.Path = utf8 "/_design/" ++ ddocName name false) ∧
      (r.Method = utf8 "PUT" →
        r.Path = utf8 "/_design/" ++ logicalName (ddocName name false)) := by
    rintro r data rfl
    refine ⟨Or.inr (Or.inl rfl), fun hm => ?_, fun hm => ?_, fun _ => ?_⟩
    · exact absurd hm.symm hG.1
    · exact absurd hm hG.2.2
    · show utf8 "/_design/" ++ ddocName (logicalName (ddocName name false)) true = _
      rw [hput]
  have hd : ∀ r, r = deleteRequest (logicalName (ddocName name false)) false →
      (r.Method = utf8 "GET" ∨ r.Method = utf8 "PUT" ∨ r.Method = utf8 "DELETE") ∧
      (r.Method = utf8 "GET" → r.Path = utf8 "/_design/" ++ ddocName name false) ∧
      (r.Method = utf8 "DELETE" → r.Path = utf8 "/_design/" ++ ddocName name false) ∧
      (r.Method = utf8 "PUT" →
        r.Path = utf8 "/_design/" ++ logicalName (ddocName name false)) := by
    rintro r rfl
    have hpath : (deleteRequest (logicalName (ddocName name false)) false).Path =
        utf8 "/_design/" ++ ddocName name false := by
      show utf8 "/_design/" ++ ddocName (logicalName (ddocName name false)) false = _
      rw [hdel]
    refine ⟨Or.inr (Or.inr rfl), fun _ => hpath, fun _ => hpath, fun hm => ?_⟩
    exact absurd hm.symm hG.2.2
  rcases publish_issued c vm name log with h1 | ⟨data, h2⟩ | ⟨data, h3⟩
  · refine ⟨_, h1, ddocName_dev_hasPrefix name, ?_⟩
    intro r hr
    simp only [List.mem_singleton] at hr
    exact hg r hr
  · refine ⟨_, h2, ddocName_dev_hasPrefix name, ?_⟩
    intro r hr
    simp only [List.mem_cons, List.mem_singleton, List.not_mem_nil, or_false] at hr
    rcases hr with hr | hr
    · exact hg r hr
    · exact hp r data hr
  · refine ⟨_, h3, ddocName_dev_hasPrefix name, ?_⟩
    intro r hr
    simp only [List.mem_cons, List.mem_singleton, List.not_mem_nil, or_false] at hr
    rcases hr with hr | hr | hr
    · exact hg r hr
    · exact hp r data hr
    · exact hd r hr

/-- Publishing `dev_idx`, a name that carries the marker once. -/
theorem publish_paths_consistent_witness :
    HasPrefix (utf8 "dev_idx") (utf8 "dev_dev_") = false ∧
    ∃ issued, (PublishDesignDocument sampleCodec
        (sampleManager [response 200 emptyObject, response 201 [], response 200 []])
        (utf8 "dev_idx") []).2 = [] ++ issued ∧
      HasPrefix (ddocName (utf8 "dev_idx") false) (utf8 "dev_") = true ∧
      ∀ r ∈ issued,
        (r.Method = utf8 "GET" ∨ r.Method = utf8 "PUT" ∨ r.Method = utf8 "DELETE") ∧
        (r.Method = utf8 "GET" →
          r.Path = utf8 "/_design/" ++ ddocName (utf8 "dev_idx") false) ∧
        (r.Method = utf8 "DELETE" →
          r.Path = utf8 "/_design/" ++ ddocName (utf8 "dev_idx") false) ∧
        (r.Method = utf8 "PUT" →
          r.Path = utf8 "/_design/" ++ logicalName (ddocName (utf8 "dev_idx") false)) :=
  ⟨by decide, publish_paths_consistent sampleCodec
    (sampleManager [response 200 emptyObject, response 201 [], response 200 []])
    (utf8 "dev_idx") [] (by decide)⟩

/-! ## The session: `connect` -/

section session
variable (core : Core) (c : stdClient) (created : List AgentConfig)

/-- A connection string that does not parse: `connect` stores and returns the error. -/
theorem connect_parse_error (e : ExtError)
    (h : core.FromConnStr (baseConfig c) c.cluster.connStr = .error e) :
    connect core c created =
      (({ c with bootstrapErr := some (.external e) }, some (.external e)), created) := by
  simp only [connect, h]

/-- The mixed-authentication failure of `connect`. -/
theorem connect_mixed (config : AgentConfig)
    (h : core.FromConnStr (baseConfig c) c.cluster.connStr = .ok config)
    (hx : useCertificates config ≠ isCertAuthenticator c.cluster.auth) :
    connect core c created =
      (({ c with bootstrapErr := some (.configurationError mixedAuthMessage) },
        some (.configurationError mixedAuthMessage)), created) := by
  simp only [connect, h]
  cases hu : useCertificates config <;> cases hi : isCertAuthenticator c.cluster.auth <;>
    simp_all

/-- When the checks pass, `connect` calls `CreateAgent` and stores what it yields. -/
theorem connect_create (config : AgentConfig)
    (h : core.FromConnStr (baseConfig c) c.cluster.connStr = .ok config)
    (hx : useCertificates config = isCertAuthenticator c.cluster.auth) :
    connect core c created =
      match core.CreateAgent (created ++ [{ config with
          BucketName := c.state.BucketName,
          UseMutationTokens := c.state.UseMutationTokens,
          Auth := c.cluster.auth }]) with
      | .error err =>
        (({ c with bootstrapErr := some (.enhanced err) }, some (.enhanced err)),
          created ++ [{ config with
            BucketName := c.state.BucketName,
            UseMutationTokens := c.state.UseMutationTokens,
            Auth := c.cluster.auth }])
      | .ok agent =>
        (({ c with agent := some agent }, none),
          created ++ [{ config with
            BucketName := c.state.BucketName,
            UseMutationTokens := c.state.UseMutationTokens,
            Auth := c.cluster.auth }]) := by
  simp only [connect, h]
  cases hu : useCertificates config <;> cases hi : isCertAuthenticator c.cluster.auth
  · simp
  · rw [hu, hi] at hx; cases hx
  · rw [hu, hi] at hx; cases hx
  · have : c.cluster.auth ≠ none := by
      intro hn
      rw [hn] at hi
      cases hi
    simp [this]

theorem useCertificates_iff (config : AgentConfig) :
    useCertificates config = true ↔
      ∃ tls, config.TlsConfig = some tls ∧ 0 < tls.Certificates.length := by
  unfold useCertificates
  cases config.TlsConfig with
  | none => simp
  | some tls => simp

theorem isCertAuthenticator_iff (auth : Option Authenticator) :
    isCertAuthenticator auth = true ↔ ∃ id, auth = some (.CertAuthenticator id) := by
  unfold isCertAuthenticator
  cases auth with
  | none => simp
  | some a => cases a <;> simp

end session

/-- C11. For every configuration the connection string parses to and every
authenticator, `connect` fails with a configuration error if and only if exactly one of
the two holds: the TLS configuration carries at least one client certificate, or the
authenticator is a `CertAuthenticator`; a nil authenticator together with client
certificates is rejected too. Whenever it fails this way `CreateAgent` is not called,
the error returned is the one stored as bootstrap error, and the agent is left as it was
(nil when it was nil). -/
theorem connect_configuration_error (core : Core) (c : stdClient)
    (created : List AgentConfig) (config : AgentConfig)
    (h : core.FromConnStr (baseConfig c) c.cluster.connStr = .ok config) :
    ((∃ msg, (connect core c created).1.2 = some (.configurationError msg)) ↔
      Xor' (∃ tls, config.TlsConfig = some tls ∧ 0 < tls.Certificates.length)
        (∃ id, c.cluster.auth = some (.CertAuthenticator id))) ∧
    (c.cluster.auth = none →
      (∃ tls, config.TlsConfig = some tls ∧ 0 < tls.Certificates.length) →
      ∃ msg, (connect core c created).1.2 = some (.configurationError msg)) ∧
    (∀ msg, (connect core c created).1.2 = some (.configurationError msg) →
      (connect core c created).2 = created ∧
      (connect core c created).1.1.bootstrapErr = some (.configurationError msg) ∧
      (connect core c created).1.1.agent = c.agent ∧
      (c.agent = none → (connect core c created).1.1.agent = none)) := by
  have hiff : (∃ msg, (connect core c created).1.2 = some (.configurationError msg)) ↔
      useCertificates config ≠ isCertAuthenticator c.cluster.auth := by
    by_cases hx : useCertificates config = isCertAuthenticator c.cluster.auth
    · rw [connect_create core c created config h hx]
      cases core.CreateAgent _ <;> simp [hx]
    · rw [connect_mixed core c created config h hx]
      simp [hx]
  refine ⟨?_, ?_, ?_⟩
  · rw [hiff, ← useCertificates_iff, ← isCertAuthenticator_iff]
    cases useCertificates config <;> cases isCertAuthenticator c.cluster.auth <;>
      simp [Xor']
  · intro hn hc
    rw [hiff, (useCertificates_iff config).2 hc, hn]
    decide
  · intro msg hm
    have hx := hiff.1 ⟨msg, hm⟩
    rw [connect_mixed core c created config h hx] at hm ⊢
    simp only [Option.some.injEq, ClientError.configurationError.injEq] at hm
    refine ⟨rfl, by rw [← hm], rfl, fun hn => hn⟩

/-- A connection string with a client certificate and a password authenticator. -/
theorem connect_configuration_error_witness :
    (connect tlsCore (newClient sampleCluster sampleState) []).1.2 =
        some (.configurationError mixedAuthMessage) ∧
    (connect tlsCore (newClient sampleCluster sampleState) []).2 = [] ∧
    (connect tlsCore (newClient sampleCluster sampleState) []).1.1.bootstrapErr =
        some (.configurationError mixedAuthMessage) ∧
    (connect tlsCore (newClient sampleCluster sampleState) []).1.1.agent = none :=
  have h := (connect_configuration_error tlsCore (newClient sampleCluster sampleState) []
    { baseConfig (newClient sampleCluster sampleState) with
      TlsConfig := some { Certificates := [1] } } rfl).2.2 mixedAuthMessage rfl
  ⟨rfl, h.1, h.2.1, h.2.2.1⟩

/-! ## The session: accessors -/

/-- C13. The claim fails for `getDiagnosticsProvider`: on a session on which `connect`
was never called (agent nil, no stored error) it returns the nil agent together with a
nil error, where `getKvProvider` and `getHTTPProvider` return the not-connected
error. -/
theorem getDiagnosticsProvider_unconnected :
    getDiagnosticsProvider (newClient sampleCluster sampleState) = (none, none) ∧
    getKvProvider (newClient sampleCluster sampleState) = (none, some notConnected) ∧
    getHTTPProvider (newClient sampleCluster sampleState) = (none, some notConnected) := by
  refine ⟨?_, ?_, ?_⟩ <;> rfl

/-- The part of the accessors' contract that holds for all three: a stored bootstrap
error is returned as it is, and a live agent without stored error is returned with a nil
error; the first two accessors report a session that never connected. -/
theorem accessors_contract (c : stdClient) :
    (∀ e, c.bootstrapErr = some e →
      getKvProvider c = (none, some e) ∧ getHTTPProvider c = (none, some e) ∧
      getDiagnosticsProvider c = (none, some e)) ∧
    (∀ a, c.bootstrapErr = none → c.agent = some a →
      getKvProvider c = (some a, none) ∧ getHTTPProvider c = (some a, none) ∧
      getDiagnosticsProvider c = (some a, none)) ∧
    (c.bootstrapErr = none → c.agent = none →
      getKvProvider c = (none, some notConnected) ∧
      getHTTPProvider c = (none, some notConnected)) := by
  refine ⟨?_, ?_, ?_⟩
  · intro e he
    simp [getKvProvider, getHTTPProvider, getDiagnosticsProvider, he]
  · intro a he ha
    simp [getKvProvider, getHTTPProvider, getDiagnosticsProvider, he, ha]
  · intro he ha
    simp [getKvProvider, getHTTPProvider, he, ha]

/-! ## The session: `openCollection` -/

/-- C17. For every session state and every context, `openCollection` for scope
`_default` and collection `_default` returns at once: it makes no call on the agent,
assigns nothing to the stored error and leaves the session exactly as it was. -/
theorem openCollection_default (lk : Lookup) (c : stdClient) (ctx : Context) :
    openCollection lk c ctx (utf8 "_default") (utf8 "_default") =
      { client := c, ending := .returned, recorded := [], calls := [] } ∧
    (openCollection lk c ctx (utf8 "_default") (utf8 "_default")).client.agent = c.agent ∧
    (openCollection lk c ctx (utf8 "_default") (utf8 "_default")).client.bootstrapErr =
      c.bootstrapErr := by
  have h : openCollection lk c ctx (utf8 "_default") (utf8 "_default") =
      { client := c, ending := .returned, recorded := [], calls := [] } := by
    unfold openCollection
    simp
  rw [h]
  exact ⟨rfl, rfl, rfl⟩

/-- C15. The claim fails on the code. On a connected, collections-capable session with a
lookup that was dispatched without error, when the context's deadline is exceeded before
the lookup completes and the cancellation succeeds, `openCollection` records
`context.DeadlineExceeded`, the value of `ctx.Err()`, and not `timeoutError`: the test
`err == context.DeadlineExceeded` looks at the error `GetCollectionID` returned, which
is nil here, instead of at the context's error. A cancellation by the caller records
`context.Canceled`. -/
theorem openCollection_deadline_not_timeoutError :
    (openCollection cancelledLookup connectedClient { done := some .DeadlineExceeded }
        (utf8 "s") (utf8 "c")).client.bootstrapErr = some (.context .DeadlineExceeded) ∧
    (openCollection cancelledLookup connectedClient { done := some .DeadlineExceeded }
        (utf8 "s") (utf8 "c")).recorded = [some (.context .DeadlineExceeded)] ∧
    (openCollection cancelledLookup connectedClient { done := some .DeadlineExceeded }
        (utf8 "s") (utf8 "c")).client.bootstrapErr ≠ some .timeoutError ∧
    (openCollection cancelledLookup connectedClient { done := some .Canceled }
        (utf8 "s") (utf8 "c")).client.bootstrapErr = some (.context .Canceled) := by
  refine ⟨?_, ?_, ?_, ?_⟩
  · rfl
  · rfl
  · decide
  · rfl

/-- On a connected, collections-capable session, a dispatched lookup that is cancelled
successfully after the context fired records the context's own error, whatever it is. -/
theorem openCollection_cancelled (lk : Lookup) (c : stdClient) (ctx : Context)
    (scopeName collectionName : GoString) (a : Agent) (ctxErr : ContextEnd)
    (hname : ¬(scopeName = utf8 "_default" ∧ collectionName = utf8 "_default"))
    (hagent : c.agent = some a) (hsup : lk.collectionsSupport = true)
    (hdis : lk.dispatch = none) (hctx : ctx.done = some ctxErr)
    (hfirst : lk.completion = none ∨ lk.ctxFirst = true) (hcan : lk.cancel = true) :
    openCollection lk c ctx scopeName collectionName =
      { client := { c with bootstrapErr := some (.context ctxErr) },
        ending := .returned,
        recorded := [some (.context ctxErr)],
        calls := [.HasCollectionsSupport, .GetCollectionID scopeName collectionName,
          .Cancel] } := by
  unfold openCollection
  rcases hfirst with hf | hf
  · simp [hname, hagent, hsup, hdis, hctx, hf, hcan]
  · cases hcomp : lk.completion <;> simp [hname, hagent, hsup, hdis, hctx, hf, hcan]

/-- C16. For every non-default collection on a connected, collections-capable session:
if the context fires first but cancelling the dispatched lookup fails, `openCollection`
waits for the completion signal and records exactly the lookup's outcome (nil when the
identifier was resolved, the lookup's error otherwise), not a cancellation or deadline
error; when the completion signal arrives first the same outcome is recorded, without
any cancellation; and, the lookup being completed unless it is cancelled, exactly one
outcome is recorded per call, which is the stored error of a call that returns. -/
theorem openCollection_true_outcome (lk : Lookup) (c : stdClient) (ctx : Context)
    (scopeName collectionName : GoString) (a : Agent)
    (hname : ¬(scopeName = utf8 "_default" ∧ collectionName = utf8 "_default"))
    (hagent : c.agent = some a) (hsup : lk.collectionsSupport = true) :
    (∀ ctxErr outcome, lk.dispatch = none → ctx.done = some ctxErr → lk.ctxFirst = true →
      lk.cancel = false → lk.completion = some outcome →
      openCollection lk c ctx scopeName collectionName =
        { client := { c with bootstrapErr := outcome }, ending := .returned,
          recorded := [outcome],
          calls := [.HasCollectionsSupport, .GetCollectionID scopeName collectionName,
            .Cancel] }) ∧
    (∀ outcome, lk.dispatch = none → lk.completion = some outcome →
      (ctx.done = none ∨ lk.ctxFirst = false) →
      openCollection lk c ctx scopeName collectionName =
        { client := { c with bootstrapErr := outcome }, ending := .returned,
          recorded := [outcome],
          calls := [.HasCollectionsSupport, .GetCollectionID scopeName collectionName] }) ∧
    ((lk.dispatch = none → lk.completion = none → ctx.done ≠ none ∧ lk.cancel = true) →
      (openCollection lk c ctx scopeName collectionName).recorded.length = 1) ∧
    ((openCollection lk c ctx scopeName collectionName).ending = .returned →
      (openCollection lk c ctx scopeName collectionName).recorded =
        [(openCollection lk c ctx scopeName collectionName).client.bootstrapErr]) := by
  refine ⟨?_, ?_, ?_, ?_⟩
  · intro ctxErr outcome hdis hctx hfirst hcan hcomp
    unfold openCollection
    simp [hname, hagent, hsup, hdis, hctx, hfirst, hcan, hcomp]
  · intro outcome hdis hcomp hsel
    unfold openCollection
    rcases hsel with hs | hs
    · simp [hname, hagent, hsup, hdis, hcomp, hs]
    · cases hctx : ctx.done <;> simp [hname, hagent, hsup, hdis, hcomp, hs]
  · intro hcontract
    unfold openCollection
    cases hdis : lk.dispatch with
    | some e =>
      cases hctx : ctx.done <;> simp [hname, hagent, hsup, hdis]
    | none =>
      cases hcomp : lk.completion with
      | none =>
        obtain ⟨h1, h2⟩ := hcontract hdis hcomp
        cases hctx : ctx.done with
        | none => exact absurd hctx h1
        | some ctxErr => simp [hname, hagent, hsup, hdis, hcomp, h2]
      | some outcome =>
        cases hctx : ctx.done <;> cases hf : lk.ctxFirst <;> cases hcan : lk.cancel <;>
          simp [hname, hagent, hsup, hdis, hcomp]
  · unfold openCollection
    cases hdis : lk.dispatch with
    | some e =>
      cases hctx : ctx.done <;> simp [hname, hagent, hsup]
    | none =>
      cases hcomp : lk.completion <;> cases hctx : ctx.done <;> cases hf : lk.ctxFirst <;>
        cases hcan : lk.cancel <;> simp [hname, hagent, hsup]

/-- A lookup past the cancellable point that completes with error 9 after the deadline
of the context was exceeded: error 9 is recorded. -/
theorem openCollection_true_outcome_witness :
    openCollection failingLookup connectedClient { done := some .DeadlineExceeded }
        (utf8 "s") (utf8 "c") =
      { client := { connectedClient with bootstrapErr := some (.external 9) },
        ending := .returned,
        recorded := [some (.external 9)],
        calls := [.HasCollectionsSupport, .GetCollectionID (utf8 "s") (utf8 "c"),
          .Cancel] } :=
  (openCollection_true_outcome failingLookup connectedClient
    { done := some .DeadlineExceeded } (utf8 "s") (utf8 "c") 1 (by decide) rfl rfl).1
    .DeadlineExceeded (some (.external 9)) rfl rfl rfl rfl rfl

/-! ## The session: sequences of calls -/

/-- After `connect` on a session that holds neither agent nor error, the session holds
an agent or an error, not both. -/
theorem connect_fresh_not_both (core : Core) (c : stdClient) (created : List AgentConfig)
    (ha : c.agent = none) (he : c.bootstrapErr = none) :
    ¬((connect core c created).1.1.agent ≠ none ∧
      (connect core c created).1.1.bootstrapErr ≠ none) := by
  cases hp : core.FromConnStr (baseConfig c) c.cluster.connStr with
  | error e =>
    rw [connect_parse_error core c created e hp]
    simp [ha]
  | ok config =>
    by_cases hx : useCertificates config = isCertAuthenticator c.cluster.auth
    · rw [connect_create core c created config hp hx]
      cases core.CreateAgent _ <;> simp [ha, he]
    · rw [connect_mixed core c created config hp hx]
      simp [ha]

/-- Calls of `openCollection` for the default scope and collection leave the session as
it is. -/
theorem runCalls_defaults (core : Core) (calls : List SessionCall) (c : stdClient)
    (created : List AgentConfig) (h : atMostOneConnect calls = true)
    (hn : calls.filter (fun call =>
      match call with
      | .connect => true
      | _ => false) = []) :
    runCalls core calls c created = (c, created) := by
  induction calls generalizing c created with
  | nil => rfl
  | cons call rest ih =>
    cases call with
    | connect => simp at hn
    | openCollection lk ctx scopeName collectionName =>
      have hd : scopeName = utf8 "_default" ∧ collectionName = utf8 "_default" := by
        simp only [atMostOneConnect, List.all_cons, Bool.and_eq_true, decide_eq_true_eq] at h
        exact h.2.1
      obtain ⟨rfl, rfl⟩ := hd
      have hrest : atMostOneConnect rest = true := by
        simp only [atMostOneConnect, List.all_cons, Bool.and_eq_true, decide_eq_true_eq,
          List.filter_cons] at h ⊢
        exact ⟨h.1, h.2.2⟩
      have hnrest : rest.filter (fun call =>
          match call with
          | .connect => true
          | _ => false) = [] := by
        simpa [List.filter_cons] using hn
      have ho : openCollection lk c ctx (utf8 "_default") (utf8 "_default") =
          { client := c, ending := .returned, recorded := [], calls := [] } := by
        unfold openCollection
        simp
      unfold runCalls
      rw [ho]
      exact ih c created hrest hnrest

/-- C12, as stated, fails in two ways. After a successful `connect`, an `openCollection`
for a non-default collection whose lookup completes with error 9 stores that error next
to the live agent; and a `connect` that succeeds after a `connect` that failed keeps the
error of the first next to the agent of the second. -/
theorem session_agent_and_error :
    (runCalls sampleCore
        [.connect, .openCollection failingLookup { done := none } (utf8 "s") (utf8 "c")]
        (newClient sampleCluster sampleState) []).1.agent = some 1 ∧
    (runCalls sampleCore
        [.connect, .openCollection failingLookup { done := none } (utf8 "s") (utf8 "c")]
        (newClient sampleCluster sampleState) []).1.bootstrapErr = some (.external 9) ∧
    (runCalls flakyCore [.connect, .connect]
        (newClient sampleCluster sampleState) []).1.agent = some 2 ∧
    (runCalls flakyCore [.connect, .connect]
        (newClient sampleCluster sampleState) []).1.bootstrapErr = some (.enhanced 5) := by
  refine ⟨?_, ?_, ?_, ?_⟩ <;> rfl

/-- C12, amended. In every state of a session reachable from a freshly created one by a
sequence of calls with at most one `connect` and with `openCollection` called only for
the default scope and collection, the session never holds both a live agent and a stored
error. -/
theorem session_never_both (core : Core) (cluster : Cluster) (sb : clientStateBlock)
    (created : List AgentConfig) (calls : List SessionCall)
    (h : atMostOneConnect calls = true) :
    ¬((runCalls core calls (newClient cluster sb) created).1.agent ≠ none ∧
      (runCalls core calls (newClient cluster sb) created).1.bootstrapErr ≠ none) := by
  have key : ∀ (calls : List SessionCall) (c : stdClient) (created : List AgentConfig),
      atMostOneConnect calls = true → c.agent = none → c.bootstrapErr = none →
      ¬((runCalls core calls c created).1.agent ≠ none ∧
        (runCalls core calls c created).1.bootstrapErr ≠ none) := by
    intro calls
    induction calls with
    | nil =>
      intro c created _ ha he
      simp [runCalls, ha]
    | cons call rest ih =>
      intro c created h ha he
      cases call with
      | connect =>
        have hn : rest.filter (fun call =>
            match call with
            | .connect => true
            | _ => false) = [] := by
          simp only [atMostOneConnect, List.filter_cons, if_true, List.length_cons,
            Bool.and_eq_true, decide_eq_true_eq] at h
          have : (rest.filter (fun call =>
            match call with
            | .connect => true
            | _ => false)).length = 0 := by omega
          exact List.length_eq_zero.1 this
        have hrest : atMostOneConnect rest = true := by
          simp only [atMostOneConnect, List.all_cons, Bool.and_eq_true, decide_eq_true_eq,
            Bool.true_and] at h ⊢
          refine ⟨?_, h.2⟩
          rw [hn]
          simp
        unfold runCalls
        rw [runCalls_defaults core rest _ _ hrest hn]
        exact connect_fresh_not_both core c created ha he
      | openCollection lk ctx scopeName collectionName =>
        have hd : scopeName = utf8 "_default" ∧ collectionName = utf8 "_default" := by
          simp only [atMostOneConnect, List.all_cons, Bool.and_eq_true,
            decide_eq_true_eq] at h
          exact h.2.1
        obtain ⟨rfl, rfl⟩ := hd
        have hrest : atMostOneConnect rest = true := by
          simp only [atMostOneConnect, List.all_cons, Bool.and_eq_true, decide_eq_true_eq,
            List.filter_cons] at h ⊢
          exact ⟨h.1, h.2.2⟩
        have ho : openCollection lk c ctx (utf8 "_default") (utf8 "_default") =
            { client := c, ending := .returned, recorded := [], calls := [] } := by
          unfold openCollection
          simp
        unfold runCalls
        rw [ho]
        exact ih c created hrest ha he
  exact key calls (newClient cluster sb) created h rfl rfl

/-- A default `openCollection`, the one `connect`, and a default `openCollection`
again. -/
theorem session_never_both_witness :
    ¬((runCalls sampleCore
        [.openCollection failingLookup { done := none } (utf8 "_default") (utf8 "_default"),
         .connect,
         .openCollection failingLookup { done := none } (utf8 "_default") (utf8 "_default")]
        (newClient sampleCluster sampleState) []).1.agent ≠ none ∧
      (runCalls sampleCore
        [.openCollection failingLookup { done := none } (utf8 "_default") (utf8 "_default"),
         .connect,
         .openCollection failingLookup { done := none } (utf8 "_default") (utf8 "_default")]
        (newClient sampleCluster sampleState) []).1.bootstrapErr ≠ none) :=
  session_never_both sampleCore sampleCluster sampleState []
    [.openCollection failingLookup { done := none } (utf8 "_default") (utf8 "_default"),
     .connect,
     .openCollection failingLookup { done := none } (utf8 "_default") (utf8 "_default")]
    (by decide)

/-- C14, as stated, fails: two `connect` calls on one session, one after the other, call
`CreateAgent` twice, and the agent of the second call (agent 2) replaces the agent of
the first (agent 1). -/
theorem connect_twice_creates_two_agents :
    (connect sampleCore (newClient sampleCluster sampleState) []).1.1.agent = some 1 ∧
    (connect sampleCore (newClient sampleCluster sampleState) []).2.length = 1 ∧
    (runCalls sampleCore [.connect, .connect]
        (newClient sampleCluster sampleState) []).1.agent = some 2 ∧
    (runCalls sampleCore [.connect, .connect]
        (newClient sampleCluster sampleState) []).2.length = 2 := by
  refine ⟨?_, ?_, ?_, ?_⟩ <;> rfl

/-- C14, amended. For every session and every pair of `connect` calls on it, made one
after the other: each call makes its own bootstrap attempt and calls `CreateAgent` at
most once; when the first call succeeds, the second parses the same connection string,
passes the same checks and calls `CreateAgent` again, and the agent it obtains replaces
the first; when the first call fails before the transport is created (connection string
or mixed authentication), the second call fails with the same error, no agent is
created, and the session is as the first call left it; after a failed first call the
stored error is still that same error when the second call succeeds, and is the error of
the second call when that one fails. -/
theorem connect_twice (core : Core) (c : stdClient) (created : List AgentConfig) :
    ((connect core c created).2 = created ∨
      ∃ config, (connect core c created).2 = created ++ [config]) ∧
    ((connect core c created).1.2 = none →
      ∃ config, (connect core c created).2 = created ++ [config] ∧
        (connect core (connect core c created).1.1 (connect core c created).2).2 =
          created ++ [config, config] ∧
        ∀ a, core.CreateAgent (created ++ [config, config]) = .ok a →
          (connect core (connect core c created).1.1 (connect core c created).2).1.1.agent =
            some a) ∧
    (∀ e, (connect core c created).1.2 = some e → (connect core c created).2 = created →
      connect core (connect core c created).1.1 (connect core c created).2 =
        (((connect core c created).1.1, some e), created)) ∧
    (∀ e, (connect core c created).1.2 = some e →
      (connect core c created).1.1.bootstrapErr = some e ∧
      ((connect core (connect core c created).1.1 (connect core c created).2).1.2 = none →
        (connect core (connect core c created).1.1
          (connect core c created).2).1.1.bootstrapErr = some e) ∧
      (∀ e2, (connect core (connect core c created).1.1 (connect core c created).2).1.2 =
          some e2 →
        (connect core (connect core c created).1.1
          (connect core c created).2).1.1.bootstrapErr = some e2)) := by
  cases hp : core.FromConnStr (baseConfig c) c.cluster.connStr with
  | error e =>
    have h1 := connect_parse_error core c created e hp
    have h2 := connect_parse_error core { c with bootstrapErr := some (.external e) } created
      e hp
    rw [h1]
    refine ⟨Or.inl rfl, ?_, ?_, ?_⟩
    · intro h; cases h
    · intro e1 he _
      cases he
      exact h2
    · intro e1 he
      cases he
      rw [h2]
      refine ⟨rfl, ?_, ?_⟩
      · intro h; cases h
      · intro e2 he2
        cases he2
        rfl
  | ok config =>
    by_cases hx : useCertificates config = isCertAuthenticator c.cluster.auth
    · have h1 := connect_create core c created config hp hx
      generalize hcfg : ({ config with
          BucketName := c.state.BucketName,
          UseMutationTokens := c.state.UseMutationTokens,
          Auth := c.cluster.auth } : AgentConfig) = cfg at h1
      cases hc : core.CreateAgent (created ++ [cfg]) with
      | error e =>
        rw [hc] at h1
        have h2 := connect_create core { c with bootstrapErr := some (.enhanced e) }
          (created ++ [cfg]) config hp hx
        simp only [hcfg] at h2
        rw [h1]
        refine ⟨Or.inr ⟨cfg, rfl⟩, ?_, ?_, ?_⟩
        · intro h; cases h
        · intro e1 _ hlen
          have := congrArg List.length hlen
          simp at this
        · intro e1 he
          cases he
          simp only
          rw [h2]
          refine ⟨trivial, ?_, ?_⟩
          · intro h
            cases hc2 : core.CreateAgent (created ++ [cfg] ++ [cfg]) with
            | error e2 => rw [hc2] at h; cases h
            | ok a => rfl
          · intro e2 he2
            cases hc2 : core.CreateAgent (created ++ [cfg] ++ [cfg]) with
            | error e3 =>
              rw [hc2] at he2
              cases he2
              rfl
            | ok a => rw [hc2] at he2; cases he2
      | ok a1 =>
        rw [hc] at h1
        have h2 := connect_create core { c with agent := some a1 } (created ++ [cfg]) config
          hp hx
        simp only [hcfg] at h2
        rw [h1]
        refine ⟨Or.inr ⟨cfg, rfl⟩, ?_, ?_, ?_⟩
        · intro _
          refine ⟨cfg, rfl, ?_, ?_⟩
          · simp only
            rw [h2]
            cases core.CreateAgent (created ++ [cfg] ++ [cfg]) <;> simp
          · intro a ha
            have ha2 : core.CreateAgent (created ++ [cfg] ++ [cfg]) = .ok a := by
              rw [← ha]
              simp
            simp only
            rw [h2, ha2]
        · intro e1 he
          cases he
        · intro e1 he
          cases he
    · have h1 := connect_mixed core c created config hp hx
      have h2 := connect_mixed core
        { c with bootstrapErr := some (.configurationError mixedAuthMessage) } created config
        hp hx
      rw [h1]
      refine ⟨Or.inl rfl, ?_, ?_, ?_⟩
      · intro h; cases h
      · intro e1 he _
        cases he
        exact h2
      · intro e1 he
        cases he
        simp only
        rw [h2]
        refine ⟨trivial, ?_, ?_⟩
        · intro h; cases h
        · intro e2 he2
          cases he2
          rfl

/-- Two calls on a session whose connection string carries a client certificate while
its authenticator is a password authenticator: both fail with the same error, and no
agent is created. -/
theorem connect_twice_witness :
    connect tlsCore (connect tlsCore (newClient sampleCluster sampleState) []).1.1
        (connect tlsCore (newClient sampleCluster sampleState) []).2 =
      (((connect tlsCore (newClient sampleCluster sampleState) []).1.1,
        some (.configurationError mixedAuthMessage)), []) :=
  (connect_twice tlsCore (newClient sampleCluster sampleState) []).2.2.1
    (.configurationError mixedAuthMessage) rfl rfl

end Gocb
